import Mathlib

/-!
# Student Information and Exam Management System

A shallow embedding of `src/Student_management_system.cpp`.

Modelling conventions
* C++ `int` values are integers (`Int`) within the 32-bit range. The only
  arithmetic on them that can leave the range is the accumulation in
  `Student::getAverage`; there every sum is wrapped to 32 bits (`wrapInt`),
  which is what the compiled program does on signed overflow.
* `int* marks` is `Option (List Int)`: `none` is `nullptr`, `some l` is a
  heap block holding the elements of `l`.
* A `double` is the rational number it denotes. The one double operation,
  `static_cast<double>(total) / numSubjects`, is `divDouble`: the quotient of
  two `int`s rounded to 53 significant bits, to nearest, ties to even.
* A member function that mutates its object returns the object after the call
  together with what the call produced; a thrown exception is an
  `Except.error`, and the object returned with it is the object at the
  moment of the throw.
* Console input is passed as arguments, console output is summarised by an
  `Outcome`, or by a `Listing` for the two operations that print a table.
* `vector<Student*> sortedStudents = students` copies pointers; the copy is
  the list of the students pointed to, which `bubbleSort` only reads.
* `new` always finds memory.
-/

namespace StudentSystem

/-! ## Exceptions -/

/-- The exception classes the program throws. -/
inductive ExnKind
  | invalidCredentials
  | studentNotFound
  | invalidMarks
  | runtimeError
  | badArrayNewLength
  deriving DecidableEq, Repr

/-- An exception object: its class and its `what()` text. -/
structure Exn where
  kind : ExnKind
  what : String
  deriving DecidableEq, Repr

/-! ## Templates -/

/-- One turn of the inner loop of `bubbleSort`: compare `arr[j]` with
`arr[j + 1]` and exchange them when `compare` says so. -/
def swapStep {α : Type} (compare : α → α → Bool) (arr : List α) (j : Nat) : List α :=
  match arr[j]?, arr[j + 1]? with
  | some a, some b => if compare a b then (arr.set j b).set (j + 1) a else arr
  | _, _ => arr

/-- The inner loop of `bubbleSort` for one `i`:
`for (int j = 0; j < n - i - 1; j++)`. -/
def innerLoop {α : Type} (compare : α → α → Bool) (n : Int) (arr : List α) (i : Nat) :
    List α :=
  (List.range (n - i - 1).toNat).foldl (swapStep compare) arr

/-- The template function `bubbleSort(vector<T*>& arr, bool (*compare)(T*, T*))`:
`n = arr.size()` and `for (int i = 0; i < n - 1; i++)` around the inner loop.
The result is the vector as the call leaves it. -/
def bubbleSort {α : Type} (arr : List α) (compare : α → α → Bool) : List α :=
  (List.range ((arr.length : Int) - 1).toNat).foldl (innerLoop compare arr.length) arr

/-- The inner loop read as a recursion on the part of the array from the
current index on, with `k` comparisons still to make; `innerLoop` is shown
equal to it below. -/
def scanPass {α : Type} (compare : α → α → Bool) : Nat → List α → List α
  | k + 1, a :: b :: rest =>
    if compare a b then b :: scanPass compare k (a :: rest)
    else a :: scanPass compare k (b :: rest)
  | _, l => l

/-! ## class Student -/

/-- The data members of `class Student`. -/
structure Student where
  rollNo : Int
  name : String
  course : String
  marks : Option (List Int)
  numSubjects : Int
  deriving DecidableEq, Repr

namespace Student

/-- The class invariant every constructor establishes: a null `marks` goes
with `numSubjects == 0`, a non-null one holds `numSubjects` elements. -/
def WF (s : Student) : Prop :=
  match s.marks with
  | none => s.numSubjects = 0
  | some l => (l.length : Int) = s.numSubjects

instance (s : Student) : Decidable s.WF := by
  unfold WF
  split <;> infer_instance

/-- The default constructor `Student()`. -/
def ctorDefault : Student :=
  { rollNo := 0, name := "", course := "", marks := none, numSubjects := 0 }

/-- The constructor `Student(int roll, const string& n, const string& c, int subjects)`:
`new int[numSubjects]` followed by the loop that zeroes every slot. A negative
array length makes the new-expression throw. -/
def ctor (roll : Int) (n c : String) (subjects : Int) : Except Exn Student :=
  if subjects < 0 then
    .error ⟨.badArrayNewLength, "std::bad_array_new_length"⟩
  else
    .ok { rollNo := roll, name := n, course := c,
          marks := some (List.replicate subjects.toNat 0),
          numSubjects := subjects }

/-- The setter `setName`. -/
def setName (s : Student) (n : String) : Student := { s with name := n }

/-- The setter `setCourse`. -/
def setCourse (s : Student) (c : String) : Student := { s with course := c }

/-- The member `setMarks(int subject, int mark)`. -/
def setMarks (s : Student) (subject mark : Int) : Except Exn Unit × Student :=
  if subject < 0 ∨ subject ≥ s.numSubjects then
    (.error ⟨.invalidMarks, "Invalid subject index"⟩, s)
  else if mark < 0 ∨ mark > 100 then
    (.error ⟨.invalidMarks, "Marks must be between 0 and 100"⟩, s)
  else
    (.ok (), { s with marks := s.marks.map (fun l => l.set subject.toNat mark) })

/-- The getter `getMarks(int subject)`. -/
def getMarks (s : Student) (subject : Int) : Int :=
  match s.marks with
  | none => 0
  | some l =>
    if subject < 0 ∨ subject ≥ s.numSubjects then 0
    else l.getD subject.toNat 0

/-- The getter `getNumSubjects`. -/
def getNumSubjects (s : Student) : Int := s.numSubjects

/-- The `int` left by an arithmetic result `x`: `x` itself when it lies in
`[-2^31, 2^31)`, else `x` wrapped around modulo `2^32`. -/
def wrapInt (x : Int) : Int := (x + 2147483648) % 4294967296 - 2147483648

/-- The integer nearest to the fraction `num / den`, the even one of the two
when `num / den` lies half-way. -/
def roundHalfEven (num den : Nat) : Nat :=
  if 2 * (num % den) < den then num / den
  else if den < 2 * (num % den) then num / den + 1
  else if (num / den) % 2 = 0 then num / den
  else num / den + 1

/-- The binary exponent of `a / b` for `1 <= a` and `1 <= b <= 2^31`: the `e`
with `2^e <= a / b < 2^(e+1)`. -/
def binaryExponent (a b : Nat) : Int := (Nat.log2 (a * 2 ^ 31 / b) : Int) - 31

/-- The double `static_cast<double>(a) / b` for `int`s `a` and `b != 0`. Both
conversions to double are exact. The division yields the double nearest to
`a / b`: with `e` the binary exponent of the quotient, `|a / b|` is scaled by
`2^(52 - e)` into `[2^52, 2^53)`, rounded to an integer, ties to even, and
scaled back. For `int` operands `e` lies in `[-31, 31]`, inside the normal
range of a double. -/
def divDouble (a b : Int) : ℚ :=
  if a = 0 then 0
  else
    ((a.sign * b.sign *
        (roundHalfEven (a.natAbs * 2 ^ (52 - binaryExponent a.natAbs b.natAbs).toNat)
          b.natAbs : Int) : Int) : ℚ) /
      (2 : ℚ) ^ (52 - binaryExponent a.natAbs b.natAbs).toNat

/-- The accumulation loop of `getAverage`:
`for (int i = 0; i < numSubjects; i++) total += marks[i];` on `int total`. -/
def totalLoop (l : List Int) (numSubjects : Int) : Int :=
  (List.range numSubjects.toNat).foldl (fun total i => wrapInt (total + l.getD i 0)) 0

/-- The member `getAverage`. -/
def getAverage (s : Student) : ℚ :=
  match s.marks with
  | none => 0
  | some l =>
    if s.numSubjects = 0 then 0
    else divDouble (totalLoop l s.numSubjects) s.numSubjects

/-- The threshold chain of `getGrade`, applied to `avg`. -/
def gradeOfAverage (avg : ℚ) : String :=
  if avg ≥ 90 then "A+"
  else if avg ≥ 80 then "A"
  else if avg ≥ 70 then "B"
  else if avg ≥ 60 then "C"
  else if avg ≥ 50 then "D"
  else "F"

/-- The member `getGrade`: `double avg = getAverage();` and the chain. -/
def getGrade (s : Student) : String :=
  gradeOfAverage s.getAverage

/-- The range condition on a stored student: a positive subject count, a
marks array of that many elements, every element in `[0, 100]`. -/
def MarksValid (s : Student) : Prop :=
  0 < s.numSubjects ∧
  ∃ l, s.marks = some l ∧ (l.length : Int) = s.numSubjects ∧ ∀ x ∈ l, 0 ≤ x ∧ x ≤ 100

end Student

/-! ## class User and its subclasses -/

/-- The data members of `class User`; `subject` is the extra member of
`class Teacher`, absent for an `Admin`. -/
structure User where
  username : String
  password : String
  role : String
  subject : Option String
  deriving DecidableEq, Repr

/-- The constructor `Admin(uname, pass)`. -/
def Admin (uname pass : String) : User :=
  { username := uname, password := pass, role := "Admin", subject := none }

/-- The constructor `Teacher(uname, pass, subj)`. -/
def Teacher (uname pass subj : String) : User :=
  { username := uname, password := pass, role := "Teacher", subject := some subj }

namespace User

/-- The virtual member `authenticate`, overridden by neither subclass. -/
def authenticate (u : User) (uname pass : String) : Bool :=
  u.username == uname && u.password == pass

/-- The getter `getRole`. -/
def getRole (u : User) : String := u.role

end User

/-! ## class ManagementSystem -/

/-- The data members of `class ManagementSystem`. Every `Student*` of the
vector owns its own object, so the vector is the list of those objects and a
`Student*` handed out by `findStudent` is a position in it. `currentUser`
is `none` for `nullptr`. -/
structure ManagementSystem where
  students : List Student
  users : List User
  currentUser : Option User
  deriving DecidableEq, Repr

/-- What a menu operation printed before returning. -/
inductive Outcome
  | done
  | denied (msg : String)
  | caught (e : Exn)
  | invalidChoice
  deriving DecidableEq, Repr

/-- An operation stopped at its role check. -/
def Outcome.isDenied : Outcome → Bool
  | .denied _ => true
  | _ => false

namespace ManagementSystem

/-- The constructor `ManagementSystem()` with its three default users. -/
def init : ManagementSystem :=
  { students := []
    users := [Admin "admin" "admin123",
              Teacher "teacher1" "teacher123" "Mathematics",
              Teacher "teacher2" "teacher456" "Physics"]
    currentUser := none }

/-- The scan of `login`: the first user whose `authenticate` accepts. -/
def loginScan (uname pass : String) : List User → Option User
  | [] => none
  | u :: rest => if u.authenticate uname pass then some u else loginScan uname pass rest

/-- What `login` yields: the returned `bool`, the exception it caught (if
any) and the system afterwards. -/
structure LoginResult where
  ret : Bool
  caught : Option Exn
  state : ManagementSystem
  deriving DecidableEq, Repr

/-- The member `login(username, password)`. -/
def login (ms : ManagementSystem) (username password : String) : LoginResult :=
  match loginScan username password ms.users with
  | some u => { ret := true, caught := none, state := { ms with currentUser := some u } }
  | none =>
    { ret := false
      caught := some ⟨.invalidCredentials, "Invalid username or password"⟩
      state := ms }

/-- The member `logout`. -/
def logout (ms : ManagementSystem) : ManagementSystem :=
  { ms with currentUser := none }

/-- The helper `findStudent(roll)` on the vector: the position of the first
student with that roll number, `none` for `nullptr`. -/
def findIn (roll : Int) : List Student → Option Nat
  | [] => none
  | s :: rest =>
    if s.rollNo = roll then some 0
    else (findIn roll rest).map (fun i => i + 1)

/-- The member `findStudent(int roll)`. -/
def findStudent (ms : ManagementSystem) (roll : Int) : Option Nat :=
  findIn roll ms.students

/-- The duplicate check of `addStudent`: some stored student has the roll. -/
def rollExists (roll : Int) : List Student → Bool
  | [] => false
  | s :: rest => if s.rollNo = roll then true else rollExists roll rest

/-- The member `addStudent`, with the four values it reads from the console. -/
def addStudent (ms : ManagementSystem) (roll : Int) (name course : String)
    (subjects : Int) : Outcome × ManagementSystem :=
  match ms.currentUser with
  | none => (.denied "Only Admin can add students!", ms)
  | some u =>
    if u.getRole ≠ "Admin" then (.denied "Only Admin can add students!", ms)
    else if rollExists roll ms.students then
      (.caught ⟨.runtimeError, "Student with this roll number already exists"⟩, ms)
    else if subjects ≤ 0 then
      (.caught ⟨.invalidMarks, "Number of subjects must be positive"⟩, ms)
    else
      match Student.ctor roll name course subjects with
      | .error e => (.caught e, ms)
      | .ok newStudent => (.done, { ms with students := ms.students ++ [newStudent] })

/-- The switch of `updateStudent` applied to the student found; `none` is the
default branch. -/
def applyChoice (s : Student) (choice : Int) (name course : String) : Option Student :=
  if choice = 1 then some (s.setName name)
  else if choice = 2 then some (s.setCourse course)
  else if choice = 3 then some ((s.setName name).setCourse course)
  else none

/-- The member `updateStudent`, with the roll number, the menu choice and the
new name and course it reads from the console. -/
def updateStudent (ms : ManagementSystem) (roll choice : Int) (name course : String) :
    Outcome × ManagementSystem :=
  match ms.currentUser with
  | none => (.denied "Only Admin can update student details!", ms)
  | some u =>
    if u.getRole ≠ "Admin" then (.denied "Only Admin can update student details!", ms)
    else
      match ms.findStudent roll with
      | none => (.caught ⟨.studentNotFound, "Student not found"⟩, ms)
      | some p =>
        match ms.students[p]? with
        | none => (.caught ⟨.studentNotFound, "Student not found"⟩, ms)
        | some s =>
          match applyChoice s choice name course with
          | none => (.invalidChoice, ms)
          | some s' => (.done, { ms with students := ms.students.set p s' })

/-- The marks loop of `conductExam` over the subject indices still to come:
each turn reads one value and calls `setMarks`; a throw ends the loop with
the student as written so far. -/
def enterMarks (marksIn : List Int) : List Nat → Student → Except Exn Unit × Student
  | [], s => (.ok (), s)
  | i :: rest, s =>
    match s.setMarks i (marksIn.getD i 0) with
    | (.ok _, s') => enterMarks marksIn rest s'
    | (.error e, s') => (.error e, s')

/-- The member `conductExam`, with the roll number and the marks it reads
from the console, one per subject. -/
def conductExam (ms : ManagementSystem) (roll : Int) (marksIn : List Int) :
    Outcome × ManagementSystem :=
  match ms.currentUser with
  | none => (.denied "Please login first!", ms)
  | some u =>
    if u.getRole ≠ "Admin" ∧ u.getRole ≠ "Teacher" then
      (.denied "Only Admin or Teacher can conduct exams!", ms)
    else
      match ms.findStudent roll with
      | none => (.caught ⟨.studentNotFound, "Student not found"⟩, ms)
      | some p =>
        match ms.students[p]? with
        | none => (.caught ⟨.studentNotFound, "Student not found"⟩, ms)
        | some s =>
          match enterMarks marksIn (List.range s.getNumSubjects.toNat) s with
          | (.ok _, s') => (.done, { ms with students := ms.students.set p s' })
          | (.error e, s') => (.caught e, { ms with students := ms.students.set p s' })

/-- The member `searchStudent`, with the roll number it reads. -/
def searchStudent (ms : ManagementSystem) (roll : Int) : Outcome × ManagementSystem :=
  match ms.findStudent roll with
  | none => (.caught ⟨.studentNotFound, "Student not found"⟩, ms)
  | some _ => (.done, ms)

/-- What `sortStudentsByMarks` and `displayAllStudents` print: the notice for
an empty roster, the notice for a choice other than 1 and 2, or the rows of
the table in the order printed. -/
inductive Listing
  | noStudents
  | invalidChoice
  | rows (students : List Student)
  deriving DecidableEq, Repr

/-- The copy `sortedStudents = students` of `sortStudentsByMarks` after the
call of `bubbleSort` on it: with `>` on averages for choice 1 (ascending),
with `<` otherwise (descending). -/
def sortedStudents (students : List Student) (choice : Int) : List Student :=
  if choice = 1 then
    bubbleSort students (fun a b => decide (a.getAverage > b.getAverage))
  else
    bubbleSort students (fun a b => decide (a.getAverage < b.getAverage))

/-- The member `sortStudentsByMarks`, with the choice it reads. -/
def sortStudentsByMarks (ms : ManagementSystem) (choice : Int) :
    Listing × ManagementSystem :=
  if ms.students.isEmpty then (.noStudents, ms)
  else if choice ≠ 1 ∧ choice ≠ 2 then (.invalidChoice, ms)
  else (.rows (sortedStudents ms.students choice), ms)

/-- The member `displayAllStudents`. -/
def displayAllStudents (ms : ManagementSystem) : Listing × ManagementSystem :=
  if ms.students.isEmpty then (.noStudents, ms)
  else (.rows ms.students, ms)

/-- One call of a member function from the menu loop of `main`, with the
values the call reads from the console. -/
inductive Op
  | login (username password : String)
  | logout
  | addStudent (roll : Int) (name course : String) (subjects : Int)
  | updateStudent (roll choice : Int) (name course : String)
  | conductExam (roll : Int) (marksIn : List Int)
  | searchStudent (roll : Int)
  | sortStudentsByMarks (choice : Int)
  | displayAllStudents
  deriving DecidableEq, Repr

/-- The system after one call. -/
def step (ms : ManagementSystem) : Op → ManagementSystem
  | .login username password => (ms.login username password).state
  | .logout => ms.logout
  | .addStudent roll name course subjects => (ms.addStudent roll name course subjects).2
  | .updateStudent roll choice name course => (ms.updateStudent roll choice name course).2
  | .conductExam roll marksIn => (ms.conductExam roll marksIn).2
  | .searchStudent roll => (ms.searchStudent roll).2
  | .sortStudentsByMarks choice => (ms.sortStudentsByMarks choice).2
  | .displayAllStudents => ms.displayAllStudents.2

/-- The system after a sequence of calls, first call first. -/
def run (ms : ManagementSystem) (ops : List Op) : ManagementSystem :=
  ops.foldl step ms

/-- A session at the console: a failed login, the admin login, two students
added, a third refused for its roll number, marks entered with one value out
of range, a rename, a sort, a logout and a teacher entering marks. -/
def sampleOps : List Op :=
  [.login "admin" "wrong",
   .login "admin" "admin123",
   .addStudent 7 "Asha" "BTech" 3,
   .addStudent 9 "Ravi" "BCA" 2,
   .addStudent 7 "Meera" "BSc" 4,
   .conductExam 7 [50, 101, 70],
   .updateStudent 9 1 "Ravi K" "",
   .sortStudentsByMarks 1,
   .logout,
   .login "teacher1" "teacher123",
   .conductExam 9 [88, 92]]

/-- Three students whose averages are 70, 90 and 80, in that order. -/
def sampleRoster : List Student :=
  [Student.mk 1 "Asha" "BTech" (some [60, 80]) 2,
   Student.mk 2 "Ravi" "BCA" (some [90]) 1,
   Student.mk 3 "Meera" "BSc" (some [75, 85]) 2]

/-- Three students of which the first and the last both have average 80. -/
def sampleTiedRoster : List Student :=
  [Student.mk 1 "Asha" "BTech" (some [80]) 1,
   Student.mk 2 "Ravi" "BCA" (some [70]) 1,
   Student.mk 3 "Meera" "BSc" (some [75, 85]) 2]

/-- A system as it stands after `login("admin", "admin123")` and one
`addStudent(7, "Asha", "BTech", 3)`. -/
def sampleAdminSession : ManagementSystem :=
  { students := [Student.mk 7 "Asha" "BTech" (some [0, 0, 0]) 3]
    users := init.users
    currentUser := some (Admin "admin" "admin123") }

/-- The same roster under the session opened by `login("teacher1", "teacher123")`. -/
def sampleTeacherSession : ManagementSystem :=
  { sampleAdminSession with
    currentUser := some (Teacher "teacher1" "teacher123" "Mathematics") }

end ManagementSystem

/-! ## Properties of class Student -/

namespace Student

/-! ### The double division -/

theorem log2_eq_of_bounds (x k : Nat) (h1 : 2 ^ k ≤ x) (h2 : x < 2 ^ (k + 1)) :
    Nat.log2 x = k := by
  have hx : x ≠ 0 := by
    have : 0 < 2 ^ k := Nat.pow_pos (by decide)
    omega
  have hlt : Nat.log2 x < k + 1 := (Nat.log2_lt hx).mpr h2
  have hle : k ≤ Nat.log2 x := (Nat.le_log2 hx).mpr h1
  omega

theorem divDouble_eval (a b : Int) (ha : a ≠ 0) (e : Int) (r : Nat)
    (he : binaryExponent a.natAbs b.natAbs = e)
    (hr : roundHalfEven (a.natAbs * 2 ^ (52 - e).toNat) b.natAbs = r) :
    divDouble a b = ((a.sign * b.sign * (r : Int) : Int) : ℚ) / (2 : ℚ) ^ (52 - e).toNat := by
  subst he
  subst hr
  unfold divDouble
  rw [if_neg ha]

theorem divDouble_two_thirds : divDouble 2 3 = 6004799503160661 / 9007199254740992 := by
  have he : binaryExponent (2 : Int).natAbs (3 : Int).natAbs = -1 := by
    unfold binaryExponent
    rw [log2_eq_of_bounds _ 30 (by decide) (by decide)]
    rfl
  rw [divDouble_eval 2 3 (by decide) (-1) 6004799503160661 he (by decide)]
  rw [show Int.sign 2 = 1 from rfl, show Int.sign 3 = 1 from rfl,
    show (52 - (-1) : Int).toNat = 53 from rfl]
  norm_num

theorem divDouble_zero (b : Int) : divDouble 0 b = 0 := by
  unfold divDouble
  rw [if_pos rfl]

theorem roundHalfEven_of_dvd (num den : Nat) (hden : 0 < den) (h : den ∣ num) :
    roundHalfEven num den = num / den := by
  unfold roundHalfEven
  rw [Nat.mod_eq_zero_of_dvd h, if_pos (by omega)]

theorem roundHalfEven_error (num den : Nat) (hden : 0 < den) :
    |(roundHalfEven num den : ℚ) - (num : ℚ) / (den : ℚ)| ≤ 1 / 2 := by
  have hd : (0 : ℚ) < den := by exact_mod_cast hden
  have hsplit : (num : ℚ) = (den : ℚ) * ((num / den : Nat) : ℚ) + ((num % den : Nat) : ℚ) := by
    exact_mod_cast (Nat.div_add_mod num den).symm
  have hq : (num : ℚ) / den = ((num / den : Nat) : ℚ) + ((num % den : Nat) : ℚ) / den := by
    rw [div_eq_iff (ne_of_gt hd), add_mul, div_mul_cancel₀ _ (ne_of_gt hd)]
    linarith
  have hr0 : (0 : ℚ) ≤ ((num % den : Nat) : ℚ) / den := by positivity
  have hr1 : ((num % den : Nat) : ℚ) / den < 1 := by
    rw [div_lt_one hd]
    exact_mod_cast Nat.mod_lt num hden
  rw [hq, abs_le]
  unfold roundHalfEven
  split_ifs with h1 h2 h3
  · have : ((num % den : Nat) : ℚ) / den < 1 / 2 := by
      rw [div_lt_iff₀ hd]
      have : (2 : ℚ) * ((num % den : Nat) : ℚ) < den := by exact_mod_cast h1
      linarith
    constructor <;> linarith
  · have : (1 : ℚ) / 2 < ((num % den : Nat) : ℚ) / den := by
      rw [lt_div_iff₀ hd]
      have : (den : ℚ) < 2 * ((num % den : Nat) : ℚ) := by exact_mod_cast h2
      linarith
    push_cast
    constructor <;> linarith
  · have heq : 2 * (num % den) = den := by omega
    have : ((num % den : Nat) : ℚ) / den = 1 / 2 := by
      rw [div_eq_iff (ne_of_gt hd)]
      have : (2 : ℚ) * ((num % den : Nat) : ℚ) = den := by exact_mod_cast heq
      linarith
    constructor <;> linarith
  · have heq : 2 * (num % den) = den := by omega
    have : ((num % den : Nat) : ℚ) / den = 1 / 2 := by
      rw [div_eq_iff (ne_of_gt hd)]
      have : (2 : ℚ) * ((num % den : Nat) : ℚ) = den := by exact_mod_cast heq
      linarith
    push_cast
    constructor <;> linarith

theorem sign_cases (z : Int) (hz : z ≠ 0) : z.sign = 1 ∨ z.sign = -1 := by
  rcases lt_trichotomy z 0 with h | h | h
  · exact Or.inr (Int.sign_eq_neg_one_of_neg h)
  · exact absurd h hz
  · exact Or.inl (Int.sign_eq_one_of_pos h)

theorem cast_eq_sign_mul (z : Int) : (z : ℚ) = (z.sign : ℚ) * (z.natAbs : ℚ) := by
  have h : z = z.sign * (z.natAbs : Int) := (Int.sign_mul_natAbs z).symm
  calc (z : ℚ) = ((z.sign * (z.natAbs : Int) : Int) : ℚ) := by rw [← h]
    _ = (z.sign : ℚ) * (z.natAbs : ℚ) := by rw [Int.cast_mul, Int.cast_natCast]

theorem div_eq_sign_mul (a b : Int) (hb : b ≠ 0) :
    (a : ℚ) / (b : ℚ) =
      ((a.sign * b.sign : Int) : ℚ) * ((a.natAbs : ℚ) / (b.natAbs : ℚ)) := by
  have hB : (b.natAbs : ℚ) ≠ 0 := by exact_mod_cast Int.natAbs_ne_zero.mpr hb
  have hbq : (b : ℚ) ≠ 0 := by exact_mod_cast hb
  rw [div_eq_iff hbq]
  conv_lhs => rw [cast_eq_sign_mul a]
  conv_rhs => rw [cast_eq_sign_mul b]
  push_cast
  rcases sign_cases b hb with h | h <;> rw [h] <;> push_cast <;> field_simp

theorem divDouble_of_dvd (a b : Int) (hb : b ≠ 0) (h : b ∣ a) :
    divDouble a b = (a : ℚ) / (b : ℚ) := by
  by_cases ha : a = 0
  · subst ha
    simp [divDouble_zero]
  · have hBpos : 0 < b.natAbs := Int.natAbs_pos.mpr hb
    have hdvd : b.natAbs ∣ a.natAbs := Int.natAbs_dvd_natAbs.mpr h
    obtain ⟨q, hq⟩ := hdvd
    rw [div_eq_sign_mul a b hb]
    unfold divDouble
    rw [if_neg ha]
    generalize (52 - binaryExponent a.natAbs b.natAbs).toNat = p
    have hdvd2 : b.natAbs ∣ a.natAbs * 2 ^ p := Dvd.dvd.mul_right ⟨q, hq⟩ _
    rw [roundHalfEven_of_dvd _ _ hBpos hdvd2, hq, Nat.mul_assoc,
      Nat.mul_div_cancel_left _ hBpos]
    have hB : (b.natAbs : ℚ) ≠ 0 := by exact_mod_cast (ne_of_gt hBpos)
    push_cast
    field_simp
    ring

theorem abs_sign_mul (a b : Int) (ha : a ≠ 0) (hb : b ≠ 0) (y : ℚ) :
    |((a.sign * b.sign : Int) : ℚ) * y| = |y| := by
  rcases sign_cases a ha with h1 | h1 <;> rcases sign_cases b hb with h2 | h2 <;>
    rw [h1, h2] <;> norm_num

theorem double_scale_bound (A B : Nat) (hA0 : 0 < A) (hA : A ≤ 2 ^ 31) (hB0 : 0 < B)
    (hB : B ≤ 2 ^ 31) :
    B * 2 ^ 53 ≤ A * 2 ^ ((52 - binaryExponent A B).toNat + 1) := by
  unfold binaryExponent
  have hxB : A * 2 ^ 31 / B * B ≤ A * 2 ^ 31 := Nat.div_mul_le_self _ _
  have hx : A * 2 ^ 31 / B ≠ 0 := by
    have : 0 < A * 2 ^ 31 / B := Nat.div_pos (by nlinarith) hB0
    omega
  have hL1 : 2 ^ Nat.log2 (A * 2 ^ 31 / B) ≤ A * 2 ^ 31 / B := Nat.log2_self_le hx
  have hL2 : Nat.log2 (A * 2 ^ 31 / B) < 63 := by
    rw [Nat.log2_lt hx]
    have h1 : A * 2 ^ 31 / B ≤ A * 2 ^ 31 := Nat.div_le_self _ _
    have h2 : A * 2 ^ 31 ≤ 2 ^ 31 * 2 ^ 31 := Nat.mul_le_mul_right _ hA
    have h3 : (2 : Nat) ^ 31 * 2 ^ 31 < 2 ^ 63 := by decide
    omega
  generalize Nat.log2 (A * 2 ^ 31 / B) = L at hL1 hL2
  have hp : (52 - ((L : Int) - 31)).toNat + 1 = 84 - L := by omega
  rw [hp]
  have hpos : 0 < 2 ^ L := Nat.pow_pos (by decide)
  apply Nat.le_of_mul_le_mul_right _ hpos
  have h84 : 2 ^ (84 - L) * 2 ^ L = 2 ^ 31 * 2 ^ 53 := by
    rw [← Nat.pow_add, ← Nat.pow_add]
    congr 1
    omega
  calc B * 2 ^ 53 * 2 ^ L = (2 ^ L * B) * 2 ^ 53 := by ring
    _ ≤ (A * 2 ^ 31 / B * B) * 2 ^ 53 := by
        apply Nat.mul_le_mul_right
        exact Nat.mul_le_mul_right _ hL1
    _ ≤ (A * 2 ^ 31) * 2 ^ 53 := Nat.mul_le_mul_right _ hxB
    _ = A * 2 ^ (84 - L) * 2 ^ L := by rw [Nat.mul_assoc, Nat.mul_assoc, h84]

theorem divDouble_error (a b : Int) (hb : b ≠ 0) (hA : a.natAbs ≤ 2 ^ 31)
    (hB : b.natAbs ≤ 2 ^ 31) :
    |divDouble a b - (a : ℚ) / (b : ℚ)| ≤ |(a : ℚ) / (b : ℚ)| / 2 ^ 53 := by
  by_cases ha : a = 0
  · subst ha
    simp [divDouble_zero]
  · have hA0 : 0 < a.natAbs := Int.natAbs_pos.mpr ha
    have hB0 : 0 < b.natAbs := Int.natAbs_pos.mpr hb
    have hkey := double_scale_bound a.natAbs b.natAbs hA0 hA hB0 hB
    have hdef : divDouble a b = ((a.sign * b.sign : Int) : ℚ) *
        ((roundHalfEven (a.natAbs * 2 ^ (52 - binaryExponent a.natAbs b.natAbs).toNat)
          b.natAbs : ℚ) / (2 : ℚ) ^ (52 - binaryExponent a.natAbs b.natAbs).toNat) := by
      unfold divDouble
      rw [if_neg ha]
      push_cast
      ring
    have hR := roundHalfEven_error
      (a.natAbs * 2 ^ (52 - binaryExponent a.natAbs b.natAbs).toNat) b.natAbs hB0
    rw [hdef, div_eq_sign_mul a b hb, ← mul_sub, abs_sign_mul a b ha hb,
      abs_sign_mul a b ha hb]
    generalize (52 - binaryExponent a.natAbs b.natAbs).toNat = p at hkey hR
    generalize roundHalfEven (a.natAbs * 2 ^ p) b.natAbs = R at hR
    generalize a.natAbs = A at hA0 hkey hR
    generalize b.natAbs = B at hB0 hkey hR
    have hAq : (0 : ℚ) < A := by exact_mod_cast hA0
    have hBq : (0 : ℚ) < B := by exact_mod_cast hB0
    have hpq : (0 : ℚ) < 2 ^ p := by positivity
    have hkq : (B : ℚ) * 2 ^ 53 ≤ A * (2 ^ p * 2) := by
      have : ((B * 2 ^ 53 : Nat) : ℚ) ≤ ((A * 2 ^ (p + 1) : Nat) : ℚ) := by exact_mod_cast hkey
      push_cast at this
      rw [pow_succ] at this
      exact this
    push_cast at hR
    have hsplit : (R : ℚ) / 2 ^ p - A / B = ((R : ℚ) - A * 2 ^ p / B) / 2 ^ p := by
      field_simp
      ring
    rw [hsplit, abs_div, abs_of_pos hpq, abs_of_pos (div_pos hAq hBq)]
    calc |(R : ℚ) - A * 2 ^ p / B| / 2 ^ p ≤ (1 / 2) / 2 ^ p :=
          div_le_div_of_nonneg_right hR (le_of_lt hpq)
      _ ≤ (A : ℚ) / B / 2 ^ 53 := by
          rw [div_div, div_div, div_le_div_iff₀ (by positivity) (by positivity)]
          linarith

/-! ### The members of Student -/

theorem wrapInt_of_range (x : Int) (h0 : -2147483648 ≤ x) (h1 : x < 2147483648) :
    wrapInt x = x := by
  unfold wrapInt
  omega

theorem sum_take_bounds (l : List Int) (hnn : ∀ x ∈ l, 0 ≤ x) (k : Nat) :
    0 ≤ (l.take k).sum ∧ (l.take k).sum ≤ l.sum := by
  have h1 : 0 ≤ (l.take k).sum :=
    List.sum_nonneg (fun x hx => hnn x (List.mem_of_mem_take hx))
  have h2 : 0 ≤ (l.drop k).sum :=
    List.sum_nonneg (fun x hx => hnn x (List.mem_of_mem_drop hx))
  have h3 := List.sum_take_add_sum_drop l k
  exact ⟨h1, by omega⟩

theorem foldl_range_getD (l : List Int) (hnn : ∀ x ∈ l, 0 ≤ x)
    (hsum : l.sum < 2147483648) (k : Nat) (hk : k ≤ l.length) :
    (List.range k).foldl (fun total i => wrapInt (total + l.getD i 0)) 0 =
      (l.take k).sum := by
  induction k with
  | zero => simp
  | succ k ih =>
    have hlt : k < l.length := hk
    have hget : l.getD k 0 = l[k] := by
      simp [List.getD, List.getElem?_eq_getElem hlt]
    have htake : (l.take (k + 1)).sum = (l.take k).sum + l[k] := by
      rw [List.take_succ, List.sum_append, List.getElem?_eq_getElem hlt]
      simp
    have hb := sum_take_bounds l hnn (k + 1)
    rw [List.range_succ, List.foldl_append, ih (Nat.le_of_lt hlt)]
    simp only [List.foldl_cons, List.foldl_nil]
    rw [hget, ← htake, wrapInt_of_range _ (by omega) (by omega)]

theorem totalLoop_eq_sum (l : List Int) (n : Int) (h : (l.length : Int) = n)
    (hnn : ∀ x ∈ l, 0 ≤ x) (hsum : l.sum < 2147483648) :
    totalLoop l n = l.sum := by
  have hn : n.toNat = l.length := by omega
  unfold totalLoop
  rw [hn, foldl_range_getD l hnn hsum l.length (Nat.le_refl _), List.take_length]

theorem setMarks_fst_ok (s : Student) (i v : Int) (hi0 : 0 ≤ i) (hin : i < s.numSubjects)
    (hv0 : 0 ≤ v) (hv : v ≤ 100) :
    s.setMarks i v =
      (.ok (), { s with marks := s.marks.map (fun l => l.set i.toNat v) }) := by
  unfold setMarks
  rw [if_neg (by omega), if_neg (by omega)]

/-- C1: `setMarks(i, v)` throws exactly when `i < 0`, `i >= numSubjects`, `v < 0` or
`v > 100`; whatever it throws is an `InvalidMarksException`, and the student
after a throwing call is the student before it. -/
theorem setMarks_fails_iff (s : Student) (i v : Int) :
    ((∃ e, (s.setMarks i v).1 = .error e ∧ e.kind = .invalidMarks) ↔
      (i < 0 ∨ i ≥ s.numSubjects ∨ v < 0 ∨ v > 100)) ∧
    (∀ e, (s.setMarks i v).1 = .error e →
      e.kind = .invalidMarks ∧ (s.setMarks i v).2 = s) := by
  unfold setMarks
  by_cases h1 : i < 0 ∨ i ≥ s.numSubjects
  · rw [if_pos h1]
    refine ⟨⟨fun _ => by tauto, fun _ => ⟨_, rfl, rfl⟩⟩, ?_⟩
    intro e he
    simp only [Except.error.injEq] at he
    subst he
    exact ⟨rfl, rfl⟩
  · rw [if_neg h1]
    by_cases h2 : v < 0 ∨ v > 100
    · rw [if_pos h2]
      refine ⟨⟨fun _ => by tauto, fun _ => ⟨_, rfl, rfl⟩⟩, ?_⟩
      intro e he
      simp only [Except.error.injEq] at he
      subst he
      exact ⟨rfl, rfl⟩
    · rw [if_neg h2]
      refine ⟨⟨?_, fun h => by tauto⟩, ?_⟩
      · rintro ⟨e, he, _⟩
        simp at he
      · intro e he
        simp at he

theorem setMarks_fails_iff_witness :
    ((∃ e, ((Student.mk 7 "Asha" "BTech" (some [10, 20, 30]) 3).setMarks 1 101).1 = .error e ∧
        e.kind = .invalidMarks) ↔
      ((1 : Int) < 0 ∨ (1 : Int) ≥ 3 ∨ (101 : Int) < 0 ∨ (101 : Int) > 100)) ∧
    (∀ e, ((Student.mk 7 "Asha" "BTech" (some [10, 20, 30]) 3).setMarks 1 101).1 = .error e →
      e.kind = .invalidMarks ∧
      ((Student.mk 7 "Asha" "BTech" (some [10, 20, 30]) 3).setMarks 1 101).2 =
        Student.mk 7 "Asha" "BTech" (some [10, 20, 30]) 3) :=
  setMarks_fails_iff (Student.mk 7 "Asha" "BTech" (some [10, 20, 30]) 3) 1 101

/-- C2: on a well-formed student, `setMarks(i, v)` with `0 <= i < numSubjects` and
`0 <= v <= 100` returns normally; afterwards `getMarks(i)` is `v`, `getMarks(j)`
is what it was for every other `j`, and the roll number, name, course,
subject count and length of the marks array are what they were. -/
theorem setMarks_ok_frame (s : Student) (i v : Int) (hwf : s.WF)
    (hi0 : 0 ≤ i) (hin : i < s.numSubjects) (hv0 : 0 ≤ v) (hv : v ≤ 100) :
    (s.setMarks i v).1 = .ok () ∧
    (s.setMarks i v).2.getMarks i = v ∧
    (∀ j, j ≠ i → (s.setMarks i v).2.getMarks j = s.getMarks j) ∧
    (s.setMarks i v).2.rollNo = s.rollNo ∧
    (s.setMarks i v).2.name = s.name ∧
    (s.setMarks i v).2.course = s.course ∧
    (s.setMarks i v).2.numSubjects = s.numSubjects ∧
    (s.setMarks i v).2.marks.map List.length = s.marks.map List.length ∧
    (s.setMarks i v).2.WF := by
  rw [setMarks_fst_ok s i v hi0 hin hv0 hv]
  obtain ⟨r, nm, c, m, k⟩ := s
  cases m with
  | none =>
    simp only [WF] at hwf
    simp only at hin
    omega
  | some l =>
    simp only [WF] at hwf
    simp only at hin
    have hlen : i.toNat < l.length := by omega
    refine ⟨rfl, ?_, ?_, rfl, rfl, rfl, rfl, by simp, by simp [WF, hwf]⟩
    · simp only [getMarks, Option.map_some']
      rw [if_neg (by omega)]
      simp [List.getD, hlen]
    · intro j hj
      simp only [getMarks, Option.map_some']
      by_cases hjr : j < 0 ∨ j ≥ k
      · rw [if_pos hjr, if_pos hjr]
      · rw [if_neg hjr, if_neg hjr]
        have hne : i.toNat ≠ j.toNat := by omega
        simp [List.getD, List.getElem?_set_ne hne]

theorem setMarks_ok_frame_witness :
    ((Student.mk 7 "Asha" "BTech" (some [10, 20, 30]) 3).setMarks 1 55).1 = .ok () ∧
    ((Student.mk 7 "Asha" "BTech" (some [10, 20, 30]) 3).setMarks 1 55).2.getMarks 1 = 55 ∧
    ((Student.mk 7 "Asha" "BTech" (some [10, 20, 30]) 3).setMarks 1 55).2.getMarks 2 = 30 :=
  have h := setMarks_ok_frame (Student.mk 7 "Asha" "BTech" (some [10, 20, 30]) 3) 1 55
    (by decide) (by decide) (by decide) (by decide) (by decide)
  ⟨h.1, h.2.1, (h.2.2.1 2 (by decide)).trans (by decide)⟩

theorem totalLoop_replicate (n : Int) : totalLoop (List.replicate n.toNat 0) n = 0 := by
  have hzero : ∀ x ∈ List.replicate n.toNat (0 : Int), x = 0 :=
    fun x hx => (List.mem_replicate.mp hx).2
  have hsum : (List.replicate n.toNat (0 : Int)).sum = 0 := by simp
  by_cases hn : 0 ≤ n
  · rw [totalLoop_eq_sum _ n (by simp only [List.length_replicate]; omega)
      (fun x hx => by rw [hzero x hx]) (by rw [hsum]; decide), hsum]
  · have h0 : n.toNat = 0 := by omega
    simp [totalLoop, h0]

theorem getAverage_of_sum (r : Int) (nm c : String) (l : List Int) (k : Int)
    (hlen : (l.length : Int) = k) (hk : k ≠ 0) (hnn : ∀ x ∈ l, 0 ≤ x)
    (hsum : l.sum < 2147483648) :
    (Student.mk r nm c (some l) k).getAverage = divDouble l.sum k := by
  simp only [getAverage]
  rw [if_neg hk, totalLoop_eq_sum l k hlen hnn hsum]

theorem getAverage_of_dvd (r : Int) (nm c : String) (l : List Int) (k : Int)
    (hlen : (l.length : Int) = k) (hk : k ≠ 0) (hnn : ∀ x ∈ l, 0 ≤ x)
    (hsum : l.sum < 2147483648) (hdvd : k ∣ l.sum) :
    (Student.mk r nm c (some l) k).getAverage = (l.sum : ℚ) / (k : ℚ) := by
  rw [getAverage_of_sum r nm c l k hlen hk hnn hsum, divDouble_of_dvd _ _ hk hdvd]

theorem getAverage_sample (s : Student) (hwf : s.WF)
    (hm : s.marks = some [80, 90, 70, 60, 100]) : s.getAverage = 80 := by
  obtain ⟨r, nm, c, m, k⟩ := s
  simp only at hm
  subst hm
  have hk : k = 5 := by simpa [WF] using hwf.symm
  subst hk
  rw [getAverage_of_dvd r nm c _ 5 (by decide) (by decide) (by decide) (by decide)
    (by decide)]
  norm_num

/-- C3: for `n > 0` the constructor returns a student that carries the given
roll number, name and course, has subject count `n` and an array of exactly
`n` marks, all of them 0 (so `getMarks(i)` is 0 for `0 <= i < n`), and whose
`getAverage()` is 0. -/
theorem ctor_zeroed (roll : Int) (name course : String) (n : Int) (hn : 0 < n) :
    ∃ s, ctor roll name course n = .ok s ∧
      s.rollNo = roll ∧ s.name = name ∧ s.course = course ∧ s.numSubjects = n ∧
      (∃ l, s.marks = some l ∧ (l.length : Int) = n ∧ ∀ x ∈ l, x = 0) ∧
      (∀ i, 0 ≤ i → i < n → s.getMarks i = 0) ∧
      s.getAverage = 0 := by
  refine ⟨_, by unfold ctor; rw [if_neg (by omega)], rfl, rfl, rfl, rfl, ?_, ?_, ?_⟩
  · refine ⟨_, rfl, ?_, ?_⟩
    · simp only [List.length_replicate]
      omega
    · intro x hx
      exact (List.mem_replicate.mp hx).2
  · intro i hi0 hin
    simp only [getMarks]
    rw [if_neg (by omega)]
    have hlt : i.toNat < n.toNat := by omega
    simp [List.getD, hlt]
  · simp only [getAverage]
    rw [if_neg (by omega), totalLoop_replicate, divDouble_zero]

theorem ctor_zeroed_witness :
    ∃ s, ctor 12 "Ravi" "BCA" 5 = .ok s ∧
      s.rollNo = 12 ∧ s.name = "Ravi" ∧ s.course = "BCA" ∧ s.numSubjects = 5 ∧
      (∃ l, s.marks = some l ∧ (l.length : Int) = 5 ∧ ∀ x ∈ l, x = 0) ∧
      (∀ i, 0 ≤ i → i < 5 → s.getMarks i = 0) ∧
      s.getAverage = 0 :=
  ctor_zeroed 12 "Ravi" "BCA" 5 (by decide)

/-- C4 (as amended): on a well-formed student whose marks are non-negative
with a sum below `2^31` and whose subject count is a positive `int`,
`getAverage()` is the double quotient of the sum of all marks by
`numSubjects`: it differs from the exact quotient by at most the fraction
`2^-53` of it, and equals it whenever `numSubjects` divides the sum. It is 0
when `numSubjects` is 0 or when `marks` is null; with the marks
`[80, 90, 70, 60, 100]` it is 80. -/
theorem getAverage_rounded (s : Student) (hwf : s.WF) :
    (∀ l, s.marks = some l → (∀ x ∈ l, 0 ≤ x) → l.sum < 2147483648 →
      0 < s.numSubjects → s.numSubjects < 2147483648 →
        s.getAverage = divDouble l.sum s.numSubjects ∧
        |s.getAverage - (l.sum : ℚ) / (s.numSubjects : ℚ)| ≤
          |(l.sum : ℚ) / (s.numSubjects : ℚ)| / 2 ^ 53 ∧
        (s.numSubjects ∣ l.sum → s.getAverage = (l.sum : ℚ) / (s.numSubjects : ℚ))) ∧
    (s.numSubjects = 0 → s.getAverage = 0) ∧
    (s.marks = none → s.getAverage = 0) ∧
    (s.marks = some [80, 90, 70, 60, 100] → s.getAverage = 80) := by
  obtain ⟨r, nm, c, m, k⟩ := s
  cases m with
  | none =>
    refine ⟨fun l h => by simp at h, fun _ => rfl, fun _ => rfl, fun h => by simp at h⟩
  | some l =>
    simp only [WF] at hwf
    refine ⟨fun l' h hnn hsum hpos hint => ?_, fun h => ?_, fun h => by simp at h,
      fun h => getAverage_sample _ hwf h⟩
    · simp only [Option.some.injEq] at h
      subst h
      simp only at hpos hint
      have hk : k ≠ 0 := by omega
      have havg := getAverage_of_sum r nm c l k hwf hk hnn hsum
      have hs0 : 0 ≤ l.sum := List.sum_nonneg hnn
      refine ⟨havg, ?_, fun hdvd => getAverage_of_dvd r nm c l k hwf hk hnn hsum hdvd⟩
      rw [havg]
      exact divDouble_error l.sum k hk (by omega) (by omega)
    · simp only at h
      simp only [getAverage]
      rw [if_pos h]

theorem getAverage_rounded_witness :
    (Student.mk 3 "Meera" "BSc" (some [1, 1, 0]) 3).getAverage = divDouble 2 3 ∧
    |(Student.mk 3 "Meera" "BSc" (some [1, 1, 0]) 3).getAverage - (2 : ℚ) / 3| ≤
      |(2 : ℚ) / 3| / 2 ^ 53 ∧
    (Student.mk 3 "Meera" "BSc" (some [80, 90, 70, 60, 100]) 5).getAverage = 80 :=
  have h := (getAverage_rounded (Student.mk 3 "Meera" "BSc" (some [1, 1, 0]) 3)
    (by decide)).1 [1, 1, 0] rfl (by decide) (by decide) (by decide) (by decide)
  ⟨h.1, by simpa using h.2.1,
    (getAverage_rounded (Student.mk 3 "Meera" "BSc" (some [80, 90, 70, 60, 100]) 5)
      (by decide)).2.2.2 rfl⟩

/-- C4 (as stated) fails: the well-formed student with the marks `[1, 1, 0]`
has `getAverage()` equal to `6004799503160661 / 2^53`
(0.66666666666666663), which is not the exact quotient 2 / 3. -/
theorem getAverage_inexact_counterexample :
    (Student.mk 3 "Meera" "BSc" (some [1, 1, 0]) 3).WF ∧
    (Student.mk 3 "Meera" "BSc" (some [1, 1, 0]) 3).getAverage =
      6004799503160661 / 9007199254740992 ∧
    (Student.mk 3 "Meera" "BSc" (some [1, 1, 0]) 3).getAverage ≠
      ((([1, 1, 0] : List Int).sum : Int) : ℚ) / ((3 : Int) : ℚ) := by
  have havg : (Student.mk 3 "Meera" "BSc" (some [1, 1, 0]) 3).getAverage =
      6004799503160661 / 9007199254740992 := by
    rw [getAverage_of_sum _ _ _ _ _ (by decide) (by decide) (by decide) (by decide)]
    exact divDouble_two_thirds
  refine ⟨by decide, havg, ?_⟩
  rw [havg]
  norm_num

theorem gradeOfAverage_spec (a : ℚ) :
    (gradeOfAverage a = "A+" ↔ 90 ≤ a) ∧
    (gradeOfAverage a = "A" ↔ 80 ≤ a ∧ a < 90) ∧
    (gradeOfAverage a = "B" ↔ 70 ≤ a ∧ a < 80) ∧
    (gradeOfAverage a = "C" ↔ 60 ≤ a ∧ a < 70) ∧
    (gradeOfAverage a = "D" ↔ 50 ≤ a ∧ a < 60) ∧
    (gradeOfAverage a = "F" ↔ a < 50) := by
  unfold gradeOfAverage
  simp only [ge_iff_le]
  split_ifs with h1 h2 h3 h4 h5 <;>
    refine ⟨?_, ?_, ?_, ?_, ?_, ?_⟩ <;>
    constructor <;> intro h <;>
    first
      | rfl
      | exact absurd h (by decide)
      | (constructor <;> linarith)
      | linarith

/-- C5: `getGrade()` depends on the average alone (two students with equal
averages get equal grades) and follows the thresholds: "A+" iff `avg >= 90`,
"A" iff `80 <= avg < 90`, "B" iff `70 <= avg < 80`, "C" iff `60 <= avg < 70`,
"D" iff `50 <= avg < 60`, "F" iff `avg < 50`; a well-formed student with the
marks `[80, 90, 70, 60, 100]` has grade "A". -/
theorem getGrade_thresholds (s : Student) :
    (∀ t : Student, t.getAverage = s.getAverage → t.getGrade = s.getGrade) ∧
    (s.getGrade = "A+" ↔ 90 ≤ s.getAverage) ∧
    (s.getGrade = "A" ↔ 80 ≤ s.getAverage ∧ s.getAverage < 90) ∧
    (s.getGrade = "B" ↔ 70 ≤ s.getAverage ∧ s.getAverage < 80) ∧
    (s.getGrade = "C" ↔ 60 ≤ s.getAverage ∧ s.getAverage < 70) ∧
    (s.getGrade = "D" ↔ 50 ≤ s.getAverage ∧ s.getAverage < 60) ∧
    (s.getGrade = "F" ↔ s.getAverage < 50) ∧
    (s.WF → s.marks = some [80, 90, 70, 60, 100] → s.getGrade = "A") := by
  obtain ⟨h1, h2, h3, h4, h5, h6⟩ := gradeOfAverage_spec s.getAverage
  refine ⟨fun t ht => ?_, h1, h2, h3, h4, h5, h6, fun hwf hm => ?_⟩
  · simp only [getGrade, ht]
  · have h80 : s.getAverage = 80 := getAverage_sample s hwf hm
    exact h2.mpr (by rw [h80]; norm_num)

theorem getGrade_thresholds_witness :
    (Student.mk 3 "Meera" "BSc" (some [80, 90, 70, 60, 100]) 5).getGrade = "A" :=
  (getGrade_thresholds (Student.mk 3 "Meera" "BSc" (some [80, 90, 70, 60, 100]) 5)).2.2.2.2.2.2.2
    (by decide) rfl

end Student

/-! ## Properties of class ManagementSystem -/

namespace ManagementSystem

theorem rollExists_iff (roll : Int) (l : List Student) :
    rollExists roll l = true ↔ ∃ s ∈ l, s.rollNo = roll := by
  induction l with
  | nil => simp [rollExists]
  | cons a rest ih =>
    simp only [rollExists, List.mem_cons, exists_eq_or_imp]
    by_cases h : a.rollNo = roll
    · simp [h]
    · simp [h, ih]

theorem rollExists_false_iff (roll : Int) (l : List Student) :
    rollExists roll l = false ↔ ∀ s ∈ l, s.rollNo ≠ roll := by
  rw [← Bool.not_eq_true, rollExists_iff]
  simp

theorem findIn_none_iff (roll : Int) (l : List Student) :
    findIn roll l = none ↔ ∀ s ∈ l, s.rollNo ≠ roll := by
  induction l with
  | nil => simp [findIn]
  | cons a rest ih =>
    simp only [findIn, List.mem_cons, forall_eq_or_imp]
    by_cases h : a.rollNo = roll
    · simp [h]
    · simp [h, ih]

theorem findIn_some_iff (roll : Int) (l : List Student) (p : Nat) :
    findIn roll l = some p ↔
      ∃ s, l[p]? = some s ∧ s.rollNo = roll ∧
        ∀ j, j < p → ∀ t, l[j]? = some t → t.rollNo ≠ roll := by
  induction l generalizing p with
  | nil => simp [findIn]
  | cons a rest ih =>
    simp only [findIn]
    by_cases h : a.rollNo = roll
    · rw [if_pos h]
      constructor
      · intro hp
        simp only [Option.some.injEq] at hp
        subst hp
        exact ⟨a, List.getElem?_cons_zero, h, fun j hj => absurd hj (Nat.not_lt_zero j)⟩
      · rintro ⟨s, _, _, hfirst⟩
        cases p with
        | zero => rfl
        | succ q => exact absurd h (hfirst 0 (Nat.succ_pos q) a List.getElem?_cons_zero)
    · rw [if_neg h]
      cases p with
      | zero =>
        constructor
        · intro hp
          simp at hp
        · rintro ⟨s, hs, hr, _⟩
          simp only [List.getElem?_cons_zero, Option.some.injEq] at hs
          subst hs
          exact absurd hr h
      | succ q =>
        simp only [Option.map_eq_some', Nat.add_right_cancel_iff, exists_eq_right,
          List.getElem?_cons_succ]
        rw [ih q]
        constructor
        · rintro ⟨s, hs, hr, hfirst⟩
          refine ⟨s, hs, hr, fun j hj t ht => ?_⟩
          cases j with
          | zero =>
            simp only [List.getElem?_cons_zero, Option.some.injEq] at ht
            subst ht
            exact h
          | succ i =>
            simp only [List.getElem?_cons_succ] at ht
            exact hfirst i (by omega) t ht
        · rintro ⟨s, hs, hr, hfirst⟩
          refine ⟨s, hs, hr, fun j hj t ht => ?_⟩
          exact hfirst (j + 1) (by omega) t (by simpa using ht)

theorem findIn_append_new (roll : Int) (l : List Student) (st : Student)
    (hnew : ∀ s ∈ l, s.rollNo ≠ roll) (hst : st.rollNo = roll) :
    findIn roll (l ++ [st]) = some l.length := by
  induction l with
  | nil => simp [findIn, hst]
  | cons a rest ih =>
    have ha : a.rollNo ≠ roll := hnew a (List.mem_cons_self a rest)
    have hrest : ∀ s ∈ rest, s.rollNo ≠ roll :=
      fun s hs => hnew s (List.mem_cons_of_mem a hs)
    have hcons : (a :: rest) ++ [st] = a :: (rest ++ [st]) := rfl
    rw [hcons, findIn, if_neg ha, ih hrest]
    rfl

theorem addStudent_admin (ms : ManagementSystem) (u : User)
    (hu : ms.currentUser = some u) (ha : u.role = "Admin")
    (roll : Int) (name course : String) (subjects : Int) :
    ms.addStudent roll name course subjects =
      if rollExists roll ms.students then
        (.caught ⟨.runtimeError, "Student with this roll number already exists"⟩, ms)
      else if subjects ≤ 0 then
        (.caught ⟨.invalidMarks, "Number of subjects must be positive"⟩, ms)
      else
        (.done, { ms with students := ms.students ++
          [Student.mk roll name course (some (List.replicate subjects.toNat 0)) subjects] }) := by
  simp only [addStudent, hu, User.getRole, ha, ne_eq, not_true_eq_false, if_false]
  by_cases h1 : rollExists roll ms.students = true
  · simp only [h1, if_true]
  · simp only [h1, Bool.false_eq_true, if_false]
    by_cases h2 : subjects ≤ 0
    · simp only [h2, if_true]
    · simp only [h2, if_false, Student.ctor, if_neg (show ¬ subjects < 0 by omega)]

theorem addStudent_done_inv (ms : ManagementSystem)
    (roll : Int) (name course : String) (subjects : Int)
    (h : (ms.addStudent roll name course subjects).1 = .done) :
    (∃ u, ms.currentUser = some u ∧ u.role = "Admin") ∧
    (∀ s ∈ ms.students, s.rollNo ≠ roll) ∧ 0 < subjects := by
  cases hc : ms.currentUser with
  | none => simp [addStudent, hc] at h
  | some u =>
    by_cases ha : u.role = "Admin"
    · rw [addStudent_admin ms u hc ha] at h
      by_cases h1 : rollExists roll ms.students = true
      · simp [h1] at h
      · by_cases h2 : subjects ≤ 0
        · simp [h1, h2] at h
        · refine ⟨⟨u, rfl, ha⟩, ?_, by omega⟩
          exact (rollExists_false_iff roll ms.students).mp (by simpa using h1)
    · simp [addStudent, hc, User.getRole, ha] at h

/-- C6: under a session whose role is "Admin", `addStudent` ends in the
duplicate-roll `runtime_error` whenever a stored student has the roll number,
whatever the other arguments; ends in `InvalidMarksException` when the roll is
new and `subjects <= 0`; and succeeds when the roll is new and `subjects > 0`.
After either failure the system, roster included, is what it was. -/
theorem addStudent_errors (ms : ManagementSystem) (u : User)
    (hu : ms.currentUser = some u) (ha : u.role = "Admin")
    (roll : Int) (name course : String) (subjects : Int) :
    ((∃ s ∈ ms.students, s.rollNo = roll) →
      ms.addStudent roll name course subjects =
        (.caught ⟨.runtimeError, "Student with this roll number already exists"⟩, ms)) ∧
    ((∀ s ∈ ms.students, s.rollNo ≠ roll) → subjects ≤ 0 →
      ms.addStudent roll name course subjects =
        (.caught ⟨.invalidMarks, "Number of subjects must be positive"⟩, ms)) ∧
    ((∀ s ∈ ms.students, s.rollNo ≠ roll) → 0 < subjects →
      (ms.addStudent roll name course subjects).1 = .done) := by
  rw [addStudent_admin ms u hu ha]
  refine ⟨fun hdup => ?_, fun hnew hle => ?_, fun hnew hpos => ?_⟩
  · rw [if_pos ((rollExists_iff roll ms.students).mpr hdup)]
  · have hf := (rollExists_false_iff roll ms.students).mpr hnew
    simp only [hf, Bool.false_eq_true, if_false, if_pos hle]
  · have hf := (rollExists_false_iff roll ms.students).mpr hnew
    simp only [hf, Bool.false_eq_true, if_false, if_neg (show ¬ subjects ≤ 0 by omega)]

theorem addStudent_errors_witness :
    (ManagementSystem.mk [Student.mk 5 "Asha" "BTech" (some [0, 0]) 2] init.users
        (some (Admin "admin" "admin123"))).addStudent 5 "Ravi" "BCA" 4 =
      (.caught ⟨.runtimeError, "Student with this roll number already exists"⟩,
        ManagementSystem.mk [Student.mk 5 "Asha" "BTech" (some [0, 0]) 2] init.users
          (some (Admin "admin" "admin123"))) :=
  (addStudent_errors
    (ManagementSystem.mk [Student.mk 5 "Asha" "BTech" (some [0, 0]) 2] init.users
      (some (Admin "admin" "admin123")))
    (Admin "admin" "admin123") rfl rfl 5 "Ravi" "BCA" 4).1
    ⟨Student.mk 5 "Asha" "BTech" (some [0, 0]) 2, List.mem_singleton.mpr rfl, rfl⟩

/-- C7: after a successful `addStudent(r, name, course, n)`, `findStudent(r)`
returns the record just created, which sits last in the roster, right after
the students stored before, all of which keep their position and fields; the
new record has roll number `r`, the given name and course, subject count `n`
and `n` marks, all 0. The users and the session are what they were. No
distinctness of the stored rolls is needed. -/
theorem addStudent_findStudent (ms : ManagementSystem)
    (roll : Int) (name course : String) (subjects : Int)
    (h : (ms.addStudent roll name course subjects).1 = .done) :
    ∃ st : Student,
      (ms.addStudent roll name course subjects).2.students = ms.students ++ [st] ∧
      (ms.addStudent roll name course subjects).2.findStudent roll =
        some ms.students.length ∧
      (ms.addStudent roll name course subjects).2.students[ms.students.length]? = some st ∧
      (ms.addStudent roll name course subjects).2.students.getLast? = some st ∧
      (∀ i, i < ms.students.length →
        (ms.addStudent roll name course subjects).2.students[i]? = ms.students[i]?) ∧
      st.rollNo = roll ∧ st.name = name ∧ st.course = course ∧
      st.numSubjects = subjects ∧ 0 < subjects ∧
      (∃ l, st.marks = some l ∧ (l.length : Int) = subjects ∧ ∀ x ∈ l, x = 0) ∧
      (ms.addStudent roll name course subjects).2.users = ms.users ∧
      (ms.addStudent roll name course subjects).2.currentUser = ms.currentUser := by
  obtain ⟨⟨u, hu, ha⟩, hnew, hpos⟩ := addStudent_done_inv ms roll name course subjects h
  have hf := (rollExists_false_iff roll ms.students).mpr hnew
  have hadd : ms.addStudent roll name course subjects =
      (.done, { ms with students := ms.students ++
        [Student.mk roll name course (some (List.replicate subjects.toNat 0)) subjects] }) := by
    rw [addStudent_admin ms u hu ha]
    simp only [hf, Bool.false_eq_true, if_false, if_neg (show ¬ subjects ≤ 0 by omega)]
  rw [hadd]
  refine ⟨Student.mk roll name course (some (List.replicate subjects.toNat 0)) subjects,
    rfl, ?_, ?_, ?_, ?_, rfl, rfl, rfl, rfl, hpos, ?_, rfl, rfl⟩
  · exact findIn_append_new roll ms.students _ hnew rfl
  · simp
  · simp
  · intro i hi
    simp [List.getElem?_append_left hi]
  · refine ⟨_, rfl, ?_, fun x hx => (List.mem_replicate.mp hx).2⟩
    simp only [List.length_replicate]
    omega

theorem addStudent_findStudent_witness :
    (sampleAdminSession.addStudent 5 "Ravi" "BCA" 2).1 = .done ∧
    ∃ st : Student,
      (sampleAdminSession.addStudent 5 "Ravi" "BCA" 2).2.students =
        sampleAdminSession.students ++ [st] ∧
      (sampleAdminSession.addStudent 5 "Ravi" "BCA" 2).2.findStudent 5 =
        some sampleAdminSession.students.length ∧
      (sampleAdminSession.addStudent 5 "Ravi" "BCA" 2).2.students[
        sampleAdminSession.students.length]? = some st ∧
      (sampleAdminSession.addStudent 5 "Ravi" "BCA" 2).2.students.getLast? = some st ∧
      (∀ i, i < sampleAdminSession.students.length →
        (sampleAdminSession.addStudent 5 "Ravi" "BCA" 2).2.students[i]? =
          sampleAdminSession.students[i]?) ∧
      st.rollNo = 5 ∧ st.name = "Ravi" ∧ st.course = "BCA" ∧
      st.numSubjects = 2 ∧ (0 : Int) < 2 ∧
      (∃ l, st.marks = some l ∧ (l.length : Int) = 2 ∧ ∀ x ∈ l, x = 0) ∧
      (sampleAdminSession.addStudent 5 "Ravi" "BCA" 2).2.users = sampleAdminSession.users ∧
      (sampleAdminSession.addStudent 5 "Ravi" "BCA" 2).2.currentUser =
        sampleAdminSession.currentUser :=
  ⟨by decide, addStudent_findStudent sampleAdminSession 5 "Ravi" "BCA" 2 (by decide)⟩

/-- C8: `findStudent(r)` returns null exactly when no stored student has roll
number `r`; it returns position `p` exactly when the student at `p` has roll
number `r` and no student before `p` has. `searchStudent`, which only calls
`findStudent`, reports `StudentNotFoundException` exactly in the first case and
leaves the system (roster, users and session) as it was. -/
theorem findStudent_spec (ms : ManagementSystem) (roll : Int) :
    (ms.findStudent roll = none ↔ ∀ s ∈ ms.students, s.rollNo ≠ roll) ∧
    (∀ p, ms.findStudent roll = some p ↔
      ∃ s, ms.students[p]? = some s ∧ s.rollNo = roll ∧
        ∀ j, j < p → ∀ t, ms.students[j]? = some t → t.rollNo ≠ roll) ∧
    ((ms.searchStudent roll).1 = .caught ⟨.studentNotFound, "Student not found"⟩ ↔
      ∀ s ∈ ms.students, s.rollNo ≠ roll) ∧
    ((ms.searchStudent roll).1 = .done ↔ ∃ s ∈ ms.students, s.rollNo = roll) ∧
    (ms.searchStudent roll).2 = ms := by
  have hnone := findIn_none_iff roll ms.students
  refine ⟨hnone, fun p => findIn_some_iff roll ms.students p, ?_, ?_, ?_⟩
  · rw [← hnone]
    simp only [searchStudent, findStudent]
    cases findIn roll ms.students <;> simp
  · have hex : (∃ s ∈ ms.students, s.rollNo = roll) ↔ findIn roll ms.students ≠ none := by
      rw [ne_eq, hnone]
      simp
    rw [hex]
    simp only [searchStudent, findStudent]
    cases findIn roll ms.students <;> simp
  · simp only [searchStudent]
    cases ms.findStudent roll <;> rfl

theorem findStudent_spec_witness :
    sampleAdminSession.findStudent 7 = some 0 ∧
    (sampleAdminSession.findStudent 8 = none ↔
      ∀ s ∈ sampleAdminSession.students, s.rollNo ≠ 8) ∧
    (sampleAdminSession.searchStudent 8).2 = sampleAdminSession :=
  have h := findStudent_spec sampleAdminSession 8
  ⟨((findStudent_spec sampleAdminSession 7).2.1 0).mpr
      ⟨Student.mk 7 "Asha" "BTech" (some [0, 0, 0]) 3, rfl, rfl,
        fun j hj => absurd hj (Nat.not_lt_zero j)⟩,
    h.1, h.2.2.2.2⟩

theorem addStudent_denied_iff (ms : ManagementSystem)
    (roll : Int) (name course : String) (subjects : Int) :
    ((ms.addStudent roll name course subjects).1.isDenied = true ↔
      ¬ ∃ u, ms.currentUser = some u ∧ u.role = "Admin") ∧
    ((ms.addStudent roll name course subjects).1.isDenied = true →
      (ms.addStudent roll name course subjects).2 = ms) := by
  cases hc : ms.currentUser with
  | none => simp [addStudent, hc, Outcome.isDenied]
  | some u =>
    by_cases ha : u.role = "Admin"
    · rw [addStudent_admin ms u hc ha]
      split_ifs <;> simp [Outcome.isDenied, ha]
    · simp [addStudent, hc, User.getRole, ha, Outcome.isDenied]

theorem updateStudent_denied_iff (ms : ManagementSystem)
    (roll choice : Int) (name course : String) :
    ((ms.updateStudent roll choice name course).1.isDenied = true ↔
      ¬ ∃ u, ms.currentUser = some u ∧ u.role = "Admin") ∧
    ((ms.updateStudent roll choice name course).1.isDenied = true →
      (ms.updateStudent roll choice name course).2 = ms) := by
  cases hc : ms.currentUser with
  | none => simp [updateStudent, hc, Outcome.isDenied]
  | some u =>
    by_cases ha : u.role = "Admin"
    · have hnot : (ms.updateStudent roll choice name course).1.isDenied = false := by
        simp only [updateStudent, hc, User.getRole, ha, ne_eq, not_true_eq_false, if_false]
        cases ms.findStudent roll with
        | none => rfl
        | some p =>
          simp only
          cases ms.students[p]? with
          | none => rfl
          | some s =>
            simp only
            cases applyChoice s choice name course <;> rfl
      simp [hnot, ha]
    · simp [updateStudent, hc, User.getRole, ha, Outcome.isDenied]

theorem conductExam_denied_iff (ms : ManagementSystem) (roll : Int) (marksIn : List Int) :
    ((ms.conductExam roll marksIn).1.isDenied = true ↔
      ¬ ∃ u, ms.currentUser = some u ∧ (u.role = "Admin" ∨ u.role = "Teacher")) ∧
    ((ms.conductExam roll marksIn).1.isDenied = true →
      (ms.conductExam roll marksIn).2 = ms) := by
  cases hc : ms.currentUser with
  | none => simp [conductExam, hc, Outcome.isDenied]
  | some u =>
    by_cases ha : u.role = "Admin" ∨ u.role = "Teacher"
    · have hex : ∃ v, some u = some v ∧ (v.role = "Admin" ∨ v.role = "Teacher") :=
        ⟨u, rfl, ha⟩
      have hgate : ¬ (u.getRole ≠ "Admin" ∧ u.getRole ≠ "Teacher") := by
        simp only [User.getRole]
        tauto
      have hnot : (ms.conductExam roll marksIn).1.isDenied = false := by
        simp only [conductExam, hc, if_neg hgate]
        cases ms.findStudent roll with
        | none => rfl
        | some p =>
          simp only
          cases ms.students[p]? with
          | none => rfl
          | some s =>
            simp only
            rcases enterMarks marksIn (List.range s.getNumSubjects.toNat) s with ⟨r, s'⟩
            cases r <;> rfl
      simp only [hnot, Bool.false_eq_true, false_iff, not_not, false_implies, and_true]
      exact hex
    · have hgate : u.getRole ≠ "Admin" ∧ u.getRole ≠ "Teacher" := by
        simp only [User.getRole]
        tauto
      have hnex : ¬ ∃ v, some u = some v ∧ (v.role = "Admin" ∨ v.role = "Teacher") := by
        rintro ⟨v, hv, hr⟩
        simp only [Option.some.injEq] at hv
        subst hv
        exact ha hr
      simp only [conductExam, hc, if_pos hgate, Outcome.isDenied, true_iff, forall_true_left]
      exact ⟨hnex, trivial⟩

/-- C9: `addStudent` and `updateStudent` stop at their role check exactly when
there is no current user with role "Admin" (so with no session and under a
"Teacher" session); `conductExam` stops at its role check exactly when there is
no current user with role "Admin" or "Teacher"; a call stopped there leaves the
whole system (roster, users, session) as it was. -/
theorem role_gating (ms : ManagementSystem) (roll : Int) (name course : String)
    (subjects choice : Int) (marksIn : List Int) :
    ((ms.addStudent roll name course subjects).1.isDenied = true ↔
      ¬ ∃ u, ms.currentUser = some u ∧ u.role = "Admin") ∧
    ((ms.updateStudent roll choice name course).1.isDenied = true ↔
      ¬ ∃ u, ms.currentUser = some u ∧ u.role = "Admin") ∧
    ((ms.conductExam roll marksIn).1.isDenied = true ↔
      ¬ ∃ u, ms.currentUser = some u ∧ (u.role = "Admin" ∨ u.role = "Teacher")) ∧
    ((ms.addStudent roll name course subjects).1.isDenied = true →
      (ms.addStudent roll name course subjects).2 = ms) ∧
    ((ms.updateStudent roll choice name course).1.isDenied = true →
      (ms.updateStudent roll choice name course).2 = ms) ∧
    ((ms.conductExam roll marksIn).1.isDenied = true →
      (ms.conductExam roll marksIn).2 = ms) :=
  ⟨(addStudent_denied_iff ms roll name course subjects).1,
   (updateStudent_denied_iff ms roll choice name course).1,
   (conductExam_denied_iff ms roll marksIn).1,
   (addStudent_denied_iff ms roll name course subjects).2,
   (updateStudent_denied_iff ms roll choice name course).2,
   (conductExam_denied_iff ms roll marksIn).2⟩

theorem role_gating_witness :
    (sampleTeacherSession.addStudent 9 "Ravi" "BCA" 4).1.isDenied = true ∧
    (sampleTeacherSession.addStudent 9 "Ravi" "BCA" 4).2 = sampleTeacherSession :=
  have h := role_gating sampleTeacherSession 9 "Ravi" "BCA" 4 3 [50, 60, 70]
  have hd : (sampleTeacherSession.addStudent 9 "Ravi" "BCA" 4).1.isDenied = true :=
    h.1.mpr (by decide)
  ⟨hd, h.2.2.2.1 hd⟩

theorem authenticate_iff (a : User) (uname pass : String) :
    a.authenticate uname pass = true ↔ a.username = uname ∧ a.password = pass := by
  simp [User.authenticate]

theorem loginScan_none_iff (uname pass : String) (l : List User) :
    loginScan uname pass l = none ↔ ∀ a ∈ l, ¬ (a.username = uname ∧ a.password = pass) := by
  induction l with
  | nil => simp [loginScan]
  | cons b rest ih =>
    simp only [loginScan, List.mem_cons, forall_eq_or_imp]
    by_cases hb : b.authenticate uname pass = true
    · have hb2 := (authenticate_iff b uname pass).mp hb
      simp [hb, hb2]
    · have hb2 : ¬ (b.username = uname ∧ b.password = pass) :=
        fun h => hb ((authenticate_iff b uname pass).mpr h)
      rw [if_neg hb, ih]
      exact ⟨fun h => ⟨hb2, h⟩, fun h => h.2⟩

theorem loginScan_some (uname pass : String) (l : List User) (a : User)
    (h : loginScan uname pass l = some a) :
    ∃ pre post, l = pre ++ a :: post ∧ (a.username = uname ∧ a.password = pass) ∧
      ∀ b ∈ pre, ¬ (b.username = uname ∧ b.password = pass) := by
  induction l with
  | nil => simp [loginScan] at h
  | cons b rest ih =>
    simp only [loginScan] at h
    by_cases hb : b.authenticate uname pass = true
    · rw [if_pos hb] at h
      simp only [Option.some.injEq] at h
      subst h
      exact ⟨[], rest, rfl, (authenticate_iff b uname pass).mp hb, by simp⟩
    · rw [if_neg hb] at h
      obtain ⟨pre, post, hl, ha, hpre⟩ := ih h
      refine ⟨b :: pre, post, by rw [hl]; rfl, ha, ?_⟩
      intro c hc
      rcases List.mem_cons.mp hc with rfl | hc
      · exact fun hm => hb ((authenticate_iff c uname pass).mpr hm)
      · exact hpre c hc

/-- C10: `login(u, p)` returns true exactly when some account has username `u`
and password `p`, compared as exact strings. When it does, the current user
becomes the first such account in the order of the account list and nothing
else changes. When it does not, `InvalidCredentialsException` is what it
caught and the system, session included, is what it was. On the seeded
system: ("admin", "admin123") opens an "Admin" session, ("teacher1",
"teacher123") a "Teacher" session, ("admin", "wrong") fails and leaves no
session, and ("Admin", "admin123") fails on letter case. -/
theorem login_spec (ms : ManagementSystem) (uname pass : String) :
    ((ms.login uname pass).ret = true ↔
      ∃ a ∈ ms.users, a.username = uname ∧ a.password = pass) ∧
    ((ms.login uname pass).ret = true →
      ∃ pre a post, ms.users = pre ++ a :: post ∧
        (a.username = uname ∧ a.password = pass) ∧
        (∀ b ∈ pre, ¬ (b.username = uname ∧ b.password = pass)) ∧
        (ms.login uname pass).state = { ms with currentUser := some a } ∧
        (ms.login uname pass).caught = none) ∧
    ((ms.login uname pass).ret = false →
      (ms.login uname pass).caught =
        some ⟨.invalidCredentials, "Invalid username or password"⟩ ∧
      (ms.login uname pass).state = ms) ∧
    ((init.login "admin" "admin123").ret = true ∧
      (init.login "admin" "admin123").state.currentUser.map User.getRole = some "Admin") ∧
    ((init.login "teacher1" "teacher123").ret = true ∧
      (init.login "teacher1" "teacher123").state.currentUser.map User.getRole =
        some "Teacher") ∧
    ((init.login "admin" "wrong").ret = false ∧
      (init.login "admin" "wrong").caught.map Exn.kind = some .invalidCredentials ∧
      (init.login "admin" "wrong").state.currentUser = none) ∧
    (init.login "Admin" "admin123").ret = false := by
  refine ⟨?_, ?_, ?_, by decide, by decide, by decide, by decide⟩
  · cases hs : loginScan uname pass ms.users with
    | none =>
      have hnone := (loginScan_none_iff uname pass ms.users).mp hs
      simp only [login, hs, Bool.false_eq_true, false_iff]
      rintro ⟨a, ha, hm⟩
      exact hnone a ha hm
    | some a =>
      obtain ⟨pre, post, hl, ha, _⟩ := loginScan_some uname pass ms.users a hs
      simp only [login, hs, true_iff]
      exact ⟨a, by rw [hl]; simp, ha⟩
  · intro hret
    cases hs : loginScan uname pass ms.users with
    | none => simp [login, hs] at hret
    | some a =>
      obtain ⟨pre, post, hl, ha, hpre⟩ := loginScan_some uname pass ms.users a hs
      refine ⟨pre, a, post, hl, ha, hpre, ?_, ?_⟩ <;> simp only [login, hs]
  · intro hret
    cases hs : loginScan uname pass ms.users with
    | none => simp only [login, hs, and_self]
    | some a => simp [login, hs] at hret

theorem login_spec_witness :
    (sampleTeacherSession.login "admin" "nope").caught =
        some ⟨.invalidCredentials, "Invalid username or password"⟩ ∧
      (sampleTeacherSession.login "admin" "nope").state = sampleTeacherSession :=
  (login_spec sampleTeacherSession "admin" "nope").2.2.1 (by decide)

end ManagementSystem

/-! ## Properties of bubbleSort -/

theorem swapStep_append {α : Type} (compare : α → α → Bool) (pre : List α) (a b : α) (post : List α) :
    swapStep compare (pre ++ a :: b :: post) pre.length =
      pre ++ (if compare a b then b :: a :: post else a :: b :: post) := by
  unfold swapStep
  have h0 : (pre ++ a :: b :: post)[pre.length]? = some a := by
    rw [List.getElem?_append_right (Nat.le_refl _)]
    simp
  have h1 : (pre ++ a :: b :: post)[pre.length + 1]? = some b := by
    rw [List.getElem?_append_right (by omega)]
    simp
  rw [h0, h1]
  by_cases hc : compare a b = true
  · simp only [hc, if_true]
    rw [List.set_append_right _ _ (Nat.le_refl _)]
    simp only [Nat.sub_self, List.set_cons_zero]
    rw [List.set_append_right _ _ (by omega)]
    simp
  · simp only [hc, Bool.false_eq_true, if_false]

theorem foldl_swapStep_range' {α : Type} (compare : α → α → Bool) (k : Nat) :
    ∀ (pre rest : List α), k < rest.length →
      (List.range' pre.length k).foldl (swapStep compare) (pre ++ rest) =
        pre ++ scanPass compare k rest := by
  induction k with
  | zero =>
    intro pre rest _
    cases rest with
    | nil => simp [scanPass]
    | cons a r => cases r <;> simp [scanPass]
  | succ k ih =>
    intro pre rest hk
    match rest, hk with
    | a :: b :: post, hk =>
      simp only [List.range'_succ, List.foldl_cons, swapStep_append, scanPass]
      simp only [List.length_cons] at hk
      by_cases hc : compare a b = true
      · simp only [hc, if_true]
        have := ih (pre ++ [b]) (a :: post) (by simp only [List.length_cons]; omega)
        simpa using this
      · simp only [hc, Bool.false_eq_true, if_false]
        have := ih (pre ++ [a]) (b :: post) (by simp only [List.length_cons]; omega)
        simpa using this

theorem innerLoop_eq_scanPass {α : Type} (compare : α → α → Bool) (n : Int) (arr : List α) (i : Nat)
    (h : (n - i - 1).toNat < arr.length) :
    innerLoop compare n arr i = scanPass compare (n - i - 1).toNat arr := by
  unfold innerLoop
  rw [List.range_eq_range']
  exact foldl_swapStep_range' compare _ [] arr h

theorem scanPass_length {α : Type} (compare : α → α → Bool) (k : Nat) :
    ∀ l : List α, (scanPass compare k l).length = l.length := by
  induction k with
  | zero => intro l; cases l with
    | nil => rfl
    | cons a r => cases r <;> rfl
  | succ k ih =>
    intro l
    match l with
    | [] => rfl
    | [_] => rfl
    | a :: b :: rest =>
      simp only [scanPass]
      split_ifs <;> simp [ih]

theorem scanPass_perm {α : Type} (compare : α → α → Bool) (k : Nat) :
    ∀ l : List α, (scanPass compare k l).Perm l := by
  induction k with
  | zero => intro l; cases l with
    | nil => exact List.Perm.refl _
    | cons a r => cases r <;> exact List.Perm.refl _
  | succ k ih =>
    intro l
    match l with
    | [] => exact List.Perm.refl _
    | [_] => exact List.Perm.refl _
    | a :: b :: rest =>
      simp only [scanPass]
      split_ifs
      · exact ((ih (a :: rest)).cons b).trans (List.Perm.swap a b rest)
      · exact (ih (b :: rest)).cons a

theorem scanPass_filter {α : Type} (compare : α → α → Bool) (p : α → Bool)
    (hp : ∀ a b, compare a b = true → ¬ (p a = true ∧ p b = true)) (k : Nat) :
    ∀ l : List α, (scanPass compare k l).filter p = l.filter p := by
  induction k with
  | zero => intro l; cases l with
    | nil => rfl
    | cons a r => cases r <;> rfl
  | succ k ih =>
    intro l
    match l with
    | [] => rfl
    | [_] => rfl
    | a :: b :: rest =>
      simp only [scanPass]
      by_cases hc : compare a b = true
      · simp only [hc, if_true, List.filter_cons, ih (a :: rest)]
        have := hp a b hc
        by_cases ha : p a = true
        · have hb : p b = false := by
            cases hpb : p b with
            | false => rfl
            | true => exact absurd ⟨ha, hpb⟩ this
          simp [ha, hb]
        · simp [ha]
      · simp only [hc, Bool.false_eq_true, if_false, List.filter_cons, ih (b :: rest)]

theorem scanPass_append {α : Type} (compare : α → α → Bool) (k : Nat) :
    ∀ (u v : List α), k < u.length → scanPass compare k (u ++ v) = scanPass compare k u ++ v := by
  induction k with
  | zero =>
    intro u v _
    have h0 : ∀ l : List α, scanPass compare 0 l = l := by
      intro l; cases l with
      | nil => rfl
      | cons a r => cases r <;> rfl
    rw [h0, h0]
  | succ k ih =>
    intro u v hk
    match u, hk with
    | a :: b :: rest, hk =>
      simp only [List.length_cons] at hk
      have ha := ih (a :: rest) v (by simp only [List.length_cons]; omega)
      have hb := ih (b :: rest) v (by simp only [List.length_cons]; omega)
      have hcons : (a :: b :: rest) ++ v = a :: b :: (rest ++ v) := rfl
      rw [hcons]
      simp only [scanPass]
      split_ifs
      · exact congrArg (List.cons b) ha
      · exact congrArg (List.cons a) hb

theorem scanPass_last {α : Type} {κ : Type} [LinearOrder κ] (key : α → κ) (compare : α → α → Bool)
    (hcmp : ∀ a b, compare a b = true ↔ key b < key a) (k : Nat) :
    ∀ u : List α, u.length = k + 1 →
      ∃ front m, scanPass compare k u = front ++ [m] ∧ ∀ x ∈ u, key x ≤ key m := by
  induction k with
  | zero =>
    intro u hu
    match u, hu with
    | [a], _ => exact ⟨[], a, rfl, by simp⟩
  | succ k ih =>
    intro u hu
    match u, hu with
    | a :: b :: rest, hu =>
      simp only [List.length_cons] at hu
      simp only [scanPass]
      by_cases hc : compare a b = true
      · obtain ⟨front, m, hs, hm⟩ := ih (a :: rest) (by simp only [List.length_cons]; omega)
        have hab : key b < key a := (hcmp a b).mp hc
        have ham : key a ≤ key m := hm a (List.mem_cons_self a rest)
        refine ⟨b :: front, m, by simp only [hc, if_true, hs, List.cons_append], ?_⟩
        intro x hx
        rcases List.mem_cons.mp hx with rfl | hx
        · exact ham
        · rcases List.mem_cons.mp hx with rfl | hx
          · exact le_trans (le_of_lt hab) ham
          · exact hm x (List.mem_cons_of_mem a hx)
      · obtain ⟨front, m, hs, hm⟩ := ih (b :: rest) (by simp only [List.length_cons]; omega)
        have hab : key a ≤ key b := not_lt.mp (fun h => hc ((hcmp a b).mpr h))
        have hbm : key b ≤ key m := hm b (List.mem_cons_self b rest)
        refine ⟨a :: front, m, by simp only [hc, Bool.false_eq_true, if_false, hs, List.cons_append], ?_⟩
        intro x hx
        rcases List.mem_cons.mp hx with rfl | hx
        · exact le_trans hab hbm
        · exact hm x hx


theorem foldl_congr_inv {α : Type} {β : Type} (f g : List α → β → List α) (Inv : List α → Prop)
    (is : List β) :
    ∀ a, Inv a → (∀ a i, i ∈ is → Inv a → f a i = g a i ∧ Inv (g a i)) →
      List.foldl f a is = List.foldl g a is ∧ Inv (List.foldl g a is) := by
  induction is with
  | nil => intro a ha _; exact ⟨rfl, ha⟩
  | cons i rest ih =>
    intro a ha hstep
    obtain ⟨hfg, hinv⟩ := hstep a i (List.mem_cons_self i rest) ha
    simp only [List.foldl_cons, hfg]
    exact ih (g a i) hinv (fun b j hj hb => hstep b j (List.mem_cons_of_mem i hj) hb)

theorem foldl_scanPass_inv {α : Type} (compare : α → α → Bool) (P : List α → Prop)
    (hP : ∀ k a, P a → P (scanPass compare k a)) (g : Nat → Nat) (is : List Nat) :
    ∀ a, P a → P (List.foldl (fun a i => scanPass compare (g i) a) a is) := by
  induction is with
  | nil => intro a ha; exact ha
  | cons i rest ih => intro a ha; exact ih _ (hP (g i) a ha)

theorem bubbleSort_eq_passes {α : Type} (l : List α) (compare : α → α → Bool) :
    bubbleSort l compare =
      List.foldl (fun a i => scanPass compare (l.length - 1 - i) a) l
        (List.range (l.length - 1)) := by
  unfold bubbleSort
  have hn : ((l.length : Int) - 1).toNat = l.length - 1 := by omega
  rw [hn]
  refine (foldl_congr_inv (innerLoop compare l.length)
    (fun a i => scanPass compare (l.length - 1 - i) a) (fun a => a.length = l.length)
    (List.range (l.length - 1)) l rfl ?_).1
  intro a i hi ha
  have hi2 : i < l.length - 1 := List.mem_range.mp hi
  have hk : ((l.length : Int) - (i : Int) - 1).toNat = l.length - 1 - i := by omega
  refine ⟨?_, (scanPass_length compare _ a).trans ha⟩
  rw [innerLoop_eq_scanPass compare _ a i (by rw [hk, ha]; omega), hk]

theorem bubbleSort_perm {α : Type} (l : List α) (compare : α → α → Bool) :
    (bubbleSort l compare).Perm l := by
  rw [bubbleSort_eq_passes]
  exact foldl_scanPass_inv compare (fun a => a.Perm l)
    (fun k a ha => (scanPass_perm compare k a).trans ha) _ _ l (List.Perm.refl l)

theorem bubbleSort_filter {α : Type} (l : List α) (compare : α → α → Bool) (p : α → Bool)
    (hp : ∀ a b, compare a b = true → ¬ (p a = true ∧ p b = true)) :
    (bubbleSort l compare).filter p = l.filter p := by
  rw [bubbleSort_eq_passes]
  exact foldl_scanPass_inv compare (fun a => a.filter p = l.filter p)
    (fun k a ha => (scanPass_filter compare p hp k a).trans ha) _ _ l rfl

theorem passes_sorted {α : Type} {κ : Type} [LinearOrder κ] (key : α → κ) (compare : α → α → Bool)
    (hcmp : ∀ a b, compare a b = true ↔ key b < key a) (l : List α) :
    ∀ t, t + 1 ≤ l.length →
      ∃ u v, List.foldl (fun a i => scanPass compare (l.length - 1 - i) a) l (List.range t)
          = u ++ v ∧
        u.length = l.length - t ∧ v.Pairwise (fun a b => key a ≤ key b) ∧
        ∀ x ∈ u, ∀ y ∈ v, key x ≤ key y := by
  intro t
  induction t with
  | zero =>
    intro _
    exact ⟨l, [], by simp, by simp, List.Pairwise.nil, by simp⟩
  | succ t ih =>
    intro ht
    obtain ⟨u, v, hcur, hlen, hv, huv⟩ := ih (by omega)
    rw [List.range_succ, List.foldl_append, hcur]
    simp only [List.foldl_cons, List.foldl_nil]
    rw [scanPass_append compare _ u v (by omega)]
    obtain ⟨front, m, hs, hm⟩ := scanPass_last key compare hcmp (l.length - 1 - t) u (by omega)
    have hperm : (front ++ [m]).Perm u := hs ▸ scanPass_perm compare _ u
    have hmu : m ∈ u := hperm.subset (by simp)
    have hfu : ∀ x ∈ front, x ∈ u := fun x hx => hperm.subset (by simp [hx])
    have hflen : front.length + 1 = u.length := by
      have := hperm.length_eq
      simpa using this
    refine ⟨front, m :: v, by rw [hs]; simp, by omega, ?_, ?_⟩
    · exact List.Pairwise.cons (fun y hy => huv m hmu y hy) hv
    · intro x hx y hy
      rcases List.mem_cons.mp hy with rfl | hy
      · exact hm x (hfu x hx)
      · exact huv x (hfu x hx) y hy

theorem bubbleSort_sorted {α : Type} {κ : Type} [LinearOrder κ] (key : α → κ) (compare : α → α → Bool)
    (hcmp : ∀ a b, compare a b = true ↔ key b < key a) (l : List α) :
    (bubbleSort l compare).Pairwise (fun a b => key a ≤ key b) := by
  rw [bubbleSort_eq_passes]
  cases hl : l.length with
  | zero =>
    simp only [Nat.zero_sub, List.range_zero, List.foldl_nil]
    rw [List.length_eq_zero.mp hl]
    exact List.Pairwise.nil
  | succ n =>
    obtain ⟨u, v, hcur, hlen, hv, huv⟩ := passes_sorted key compare hcmp l n (by omega)
    rw [hl] at hcur hlen
    simp only [Nat.add_sub_cancel]
    simp only [Nat.add_sub_cancel] at hcur
    rw [hcur]
    have hu1 : u.length = 1 := by omega
    match u, hu1 with
    | [x], _ =>
      exact List.pairwise_append.mpr ⟨List.pairwise_singleton _ _, hv, huv⟩

theorem pairwise_adjacent {α : Type} (R : α → α → Prop) :
    ∀ (l : List α), l.Pairwise R → ∀ (i : Nat) (a b : α),
      l[i]? = some a → l[i + 1]? = some b → R a b := by
  intro l
  induction l with
  | nil => intro _ i a b ha _; simp at ha
  | cons x xs ih =>
    intro hp i a b ha hb
    rw [List.pairwise_cons] at hp
    cases i with
    | zero =>
      simp only [List.getElem?_cons_zero, Option.some.injEq] at ha
      simp only [Nat.zero_add, List.getElem?_cons_succ] at hb
      subst ha
      exact hp.1 b (List.getElem?_mem hb)
    | succ i =>
      simp only [List.getElem?_cons_succ] at ha hb
      exact ih hp.2 i a b ha hb

namespace ManagementSystem

theorem sortedStudents_pairwise_asc (students : List Student) :
    (sortedStudents students 1).Pairwise (fun a b => a.getAverage ≤ b.getAverage) := by
  simp only [sortedStudents, if_true]
  exact bubbleSort_sorted (fun s : Student => s.getAverage) _ (fun a b => by simp) students

theorem sortedStudents_pairwise_desc (students : List Student) (choice : Int)
    (hc : choice ≠ 1) :
    (sortedStudents students choice).Pairwise (fun a b => b.getAverage ≤ a.getAverage) := by
  simp only [sortedStudents, if_neg hc]
  have h := bubbleSort_sorted (fun s : Student => - s.getAverage)
    (fun a b => decide (a.getAverage < b.getAverage)) (fun a b => by simp) students
  exact h.imp (fun hab => neg_le_neg_iff.mp hab)

theorem sortedStudents_sample (a b c : Student)
    (ha : a.getAverage = 70) (hb : b.getAverage = 90) (hc : c.getAverage = 80) :
    sortedStudents [a, b, c] 1 = [a, c, b] ∧ sortedStudents [a, b, c] 2 = [b, c, a] := by
  constructor
  · norm_num [sortedStudents, bubbleSort_eq_passes, List.range_succ, scanPass, ha, hb, hc]
  · norm_num [sortedStudents, bubbleSort_eq_passes, List.range_succ, scanPass, ha, hb, hc]

/-- C11: in the list `sortStudentsByMarks` prints for choice 1 (ascending)
every student's average is at most the next one's, in the list it prints for
choice 2 (descending) every student's average is at least the next one's; three
students with averages 70, 90, 80 come out in the order 70, 80, 90 ascending
and 90, 80, 70 descending. -/
theorem sortedStudents_ordered (students : List Student) :
    (∀ i a b, (sortedStudents students 1)[i]? = some a →
      (sortedStudents students 1)[i + 1]? = some b → a.getAverage ≤ b.getAverage) ∧
    (∀ i a b, (sortedStudents students 2)[i]? = some a →
      (sortedStudents students 2)[i + 1]? = some b → a.getAverage ≥ b.getAverage) ∧
    (∀ a b c : Student, a.getAverage = 70 → b.getAverage = 90 → c.getAverage = 80 →
      sortedStudents [a, b, c] 1 = [a, c, b] ∧ sortedStudents [a, b, c] 2 = [b, c, a]) := by
  refine ⟨?_, ?_, ?_⟩
  · exact pairwise_adjacent _ _ (sortedStudents_pairwise_asc students)
  · exact pairwise_adjacent _ _ (sortedStudents_pairwise_desc students 2 (by decide))
  · exact sortedStudents_sample

theorem sampleRoster_sorted :
    sortedStudents sampleRoster 1 =
        [Student.mk 1 "Asha" "BTech" (some [60, 80]) 2,
         Student.mk 3 "Meera" "BSc" (some [75, 85]) 2,
         Student.mk 2 "Ravi" "BCA" (some [90]) 1] ∧
      sortedStudents sampleRoster 2 =
        [Student.mk 2 "Ravi" "BCA" (some [90]) 1,
         Student.mk 3 "Meera" "BSc" (some [75, 85]) 2,
         Student.mk 1 "Asha" "BTech" (some [60, 80]) 2] :=
  sortedStudents_sample _ _ _
    (by rw [Student.getAverage_of_dvd _ _ _ _ _ (by decide) (by decide) (by decide)
      (by decide) (by decide)]; norm_num)
    (by rw [Student.getAverage_of_dvd _ _ _ _ _ (by decide) (by decide) (by decide)
      (by decide) (by decide)]; norm_num)
    (by rw [Student.getAverage_of_dvd _ _ _ _ _ (by decide) (by decide) (by decide)
      (by decide) (by decide)]; norm_num)

theorem sortedStudents_ordered_witness :
    sortedStudents sampleRoster 1 =
        [Student.mk 1 "Asha" "BTech" (some [60, 80]) 2,
         Student.mk 3 "Meera" "BSc" (some [75, 85]) 2,
         Student.mk 2 "Ravi" "BCA" (some [90]) 1] ∧
      sortedStudents sampleRoster 2 =
        [Student.mk 2 "Ravi" "BCA" (some [90]) 1,
         Student.mk 3 "Meera" "BSc" (some [75, 85]) 2,
         Student.mk 1 "Asha" "BTech" (some [60, 80]) 2] :=
  (sortedStudents_ordered sampleRoster).2.2
    (Student.mk 1 "Asha" "BTech" (some [60, 80]) 2)
    (Student.mk 2 "Ravi" "BCA" (some [90]) 1)
    (Student.mk 3 "Meera" "BSc" (some [75, 85]) 2)
    (by rw [Student.getAverage_of_dvd _ _ _ _ _ (by decide) (by decide) (by decide)
      (by decide) (by decide)]; norm_num)
    (by rw [Student.getAverage_of_dvd _ _ _ _ _ (by decide) (by decide) (by decide)
      (by decide) (by decide)]; norm_num)
    (by rw [Student.getAverage_of_dvd _ _ _ _ _ (by decide) (by decide) (by decide)
      (by decide) (by decide)]; norm_num)

theorem sortedStudents_perm (students : List Student) (choice : Int) :
    (sortedStudents students choice).Perm students := by
  unfold sortedStudents
  split_ifs <;> exact bubbleSort_perm _ _

/-- C12: the list `sortStudentsByMarks` prints, in either direction, is a
permutation of the roster (every student occurs in it exactly as often as in
the roster), it is the sorted copy whenever the roster is not empty and the
choice is 1 or 2, and the system after the call, roster included, is the
system before it. -/
theorem sortStudentsByMarks_perm (ms : ManagementSystem) (choice : Int) :
    (sortedStudents ms.students choice).Perm ms.students ∧
    (∀ s, (sortedStudents ms.students choice).count s = ms.students.count s) ∧
    (ms.students ≠ [] → choice = 1 ∨ choice = 2 →
      (ms.sortStudentsByMarks choice).1 = .rows (sortedStudents ms.students choice)) ∧
    (∀ rows, (ms.sortStudentsByMarks choice).1 = .rows rows → rows.Perm ms.students) ∧
    (ms.sortStudentsByMarks choice).2 = ms := by
  have hperm := sortedStudents_perm ms.students choice
  refine ⟨hperm, fun s => hperm.count_eq s, ?_, ?_, ?_⟩
  · intro hne hch
    have he : ms.students.isEmpty = false := by
      cases hs : ms.students with
      | nil => exact absurd hs hne
      | cons a r => rfl
    have hc : ¬ (choice ≠ 1 ∧ choice ≠ 2) := by omega
    simp only [sortStudentsByMarks, he, Bool.false_eq_true, if_false, if_neg hc]
  · intro rows hrows
    unfold sortStudentsByMarks at hrows
    split_ifs at hrows
    simp only [Listing.rows.injEq] at hrows
    exact hrows ▸ hperm
  · unfold sortStudentsByMarks
    split_ifs <;> rfl

theorem sortStudentsByMarks_perm_witness :
    (ManagementSystem.mk sampleRoster init.users none).sortStudentsByMarks 2 =
      (.rows [Student.mk 2 "Ravi" "BCA" (some [90]) 1,
              Student.mk 3 "Meera" "BSc" (some [75, 85]) 2,
              Student.mk 1 "Asha" "BTech" (some [60, 80]) 2],
        ManagementSystem.mk sampleRoster init.users none) :=
  have h := sortStudentsByMarks_perm (ManagementSystem.mk sampleRoster init.users none) 2
  Prod.ext ((h.2.2.1 (by decide) (Or.inr rfl)).trans
    (congrArg Listing.rows sampleRoster_sorted.2)) h.2.2.2.2

/-- C16: the sort is stable in either direction: for every average value, the
students with that average occur in the sorted list in the order in which
they occur in the roster. `bubbleSort` exchanges two neighbours only when the
strict comparison of their averages holds, so never two of equal average. -/
theorem sortedStudents_stable (students : List Student) (choice : Int) (avg : ℚ) :
    (sortedStudents students choice).filter (fun s => decide (s.getAverage = avg)) =
      students.filter (fun s => decide (s.getAverage = avg)) := by
  unfold sortedStudents
  split_ifs
  · refine bubbleSort_filter _ _ _ (fun a b hab hp => ?_)
    simp only [decide_eq_true_eq] at hab hp
    rw [hp.1, hp.2] at hab
    exact lt_irrefl _ hab
  · refine bubbleSort_filter _ _ _ (fun a b hab hp => ?_)
    simp only [decide_eq_true_eq] at hab hp
    rw [hp.1, hp.2] at hab
    exact lt_irrefl _ hab

theorem sortedStudents_stable_witness :
    (sortedStudents sampleTiedRoster 1).filter (fun s => decide (s.getAverage = 80)) =
      [Student.mk 1 "Asha" "BTech" (some [80]) 1,
       Student.mk 3 "Meera" "BSc" (some [75, 85]) 2] :=
  have h1 : (Student.mk 1 "Asha" "BTech" (some [80]) 1).getAverage = 80 := by
    rw [Student.getAverage_of_dvd _ _ _ _ _ (by decide) (by decide) (by decide)
      (by decide) (by decide)]; norm_num
  have h2 : (Student.mk 2 "Ravi" "BCA" (some [70]) 1).getAverage = 70 := by
    rw [Student.getAverage_of_dvd _ _ _ _ _ (by decide) (by decide) (by decide)
      (by decide) (by decide)]; norm_num
  have h3 : (Student.mk 3 "Meera" "BSc" (some [75, 85]) 2).getAverage = 80 := by
    rw [Student.getAverage_of_dvd _ _ _ _ _ (by decide) (by decide) (by decide)
      (by decide) (by decide)]; norm_num
  have h2ne : ¬ (Student.mk 2 "Ravi" "BCA" (some [70]) 1).getAverage = 80 := by
    rw [h2]; norm_num
  (sortedStudents_stable sampleTiedRoster 1 80).trans
    (by
      rw [sampleTiedRoster,
        List.filter_cons_of_pos (p := fun s : Student => decide (s.getAverage = 80))
          (decide_eq_true h1),
        List.filter_cons_of_neg (p := fun s : Student => decide (s.getAverage = 80))
          (by rw [decide_eq_true_eq]; exact h2ne),
        List.filter_cons_of_pos (p := fun s : Student => decide (s.getAverage = 80))
          (decide_eq_true h3), List.filter_nil])

theorem enterMarks_append (marksIn : List Int) (is js : List Nat) :
    ∀ s : Student, enterMarks marksIn (is ++ js) s =
      match enterMarks marksIn is s with
      | (.ok _, s') => enterMarks marksIn js s'
      | (.error e, s') => (.error e, s') := by
  induction is with
  | nil => intro s; rfl
  | cons i rest ih =>
    intro s
    simp only [List.cons_append, enterMarks]
    rcases hset : s.setMarks i (marksIn.getD i 0) with ⟨r, s'⟩
    cases r with
    | ok u => exact ih s'
    | error e => rfl

theorem enterMarks_upto_ok (marksIn : List Int) (r : Int) (nm c : String) (l : List Int)
    (n : Int) (hl : (l.length : Int) = n) (k : Nat) (hk : k ≤ l.length)
    (hkm : k ≤ marksIn.length)
    (hgood : ∀ j, j < k → 0 ≤ marksIn.getD j 0 ∧ marksIn.getD j 0 ≤ 100) :
    enterMarks marksIn (List.range k) (Student.mk r nm c (some l) n) =
      (.ok (), Student.mk r nm c (some (marksIn.take k ++ l.drop k)) n) := by
  induction k with
  | zero => simp [enterMarks]
  | succ k ih =>
    have hklt : k < l.length := hk
    have hkmlt : k < marksIn.length := hkm
    rw [List.range_succ, enterMarks_append,
      ih (Nat.le_of_lt hklt) (Nat.le_of_lt hkmlt) (fun j hj => hgood j (by omega))]
    simp only [enterMarks]
    obtain ⟨hv0, hv1⟩ := hgood k (Nat.lt_succ_self k)
    rw [Student.setMarks_fst_ok _ (k : Int) _ (by omega) (by simp only; omega) hv0 hv1]
    simp only [Option.map_some', Int.toNat_ofNat]
    have htk : (marksIn.take k).length = k := by
      rw [List.length_take]; omega
    have hset : (marksIn.take k ++ l.drop k).set k (marksIn.getD k 0) =
        marksIn.take (k + 1) ++ l.drop (k + 1) := by
      have htake : marksIn.take (k + 1) = marksIn.take k ++ [marksIn[k]] := by
        rw [List.take_succ, List.getElem?_eq_getElem hkmlt]
        rfl
      have hget : marksIn.getD k 0 = marksIn[k] := by
        simp [List.getD, List.getElem?_eq_getElem hkmlt]
      rw [List.set_append_right _ _ (by omega), htk, Nat.sub_self,
        List.drop_eq_getElem_cons hklt, List.set_cons_zero, htake, hget,
        List.append_assoc]
      rfl
    rw [hset]

theorem range_split (k n : Nat) (h : k < n) :
    ∃ rest, List.range n = List.range k ++ k :: rest := by
  obtain ⟨d, rfl⟩ : ∃ d, n = k + (d + 1) := ⟨n - k - 1, by omega⟩
  rw [List.range_add, List.range_succ_eq_map]
  exact ⟨(List.map Nat.succ (List.range d)).map (fun x => k + x), rfl⟩

theorem set_self_of_getElem? {α : Type} (l : List α) (p : Nat) (a : α)
    (h : l[p]? = some a) : l.set p a = l := by
  induction l generalizing p with
  | nil => rfl
  | cons x xs ih =>
    cases p with
    | zero =>
      simp only [List.getElem?_cons_zero, Option.some.injEq] at h
      rw [List.set_cons_zero, h]
    | succ q =>
      simp only [List.getElem?_cons_succ] at h
      rw [List.set_cons_succ, ih q h]

theorem conductExam_found (ms : ManagementSystem) (u : User)
    (hu : ms.currentUser = some u) (hr : u.role = "Admin" ∨ u.role = "Teacher")
    (roll : Int) (marksIn : List Int) (p : Nat) (s : Student)
    (hfind : ms.findStudent roll = some p) (hs : ms.students[p]? = some s) :
    ms.conductExam roll marksIn =
      match enterMarks marksIn (List.range s.getNumSubjects.toNat) s with
      | (.ok _, s') => (.done, { ms with students := ms.students.set p s' })
      | (.error e, s') => (.caught e, { ms with students := ms.students.set p s' }) := by
  have hgate : ¬ (u.getRole ≠ "Admin" ∧ u.getRole ≠ "Teacher") := by
    simp only [User.getRole]
    tauto
  simp only [conductExam, hu, if_neg hgate, hfind, hs]

/-- C13 (as amended): under an "Admin" or "Teacher" session, for a stored
well-formed student and as many supplied values as it has subjects, when the
value for subject `k` is the first one outside `[0, 100]`, `conductExam` ends
in `InvalidMarksException` and leaves that student with the supplied values in
subjects `0 .. k-1` and its former marks in subjects `k .. n-1`, everything
else in the system as it was; when `k = 0` the system is what it was. -/
theorem conductExam_fail_written (ms : ManagementSystem) (u : User)
    (hu : ms.currentUser = some u) (hr : u.role = "Admin" ∨ u.role = "Teacher")
    (roll : Int) (p : Nat) (s : Student) (l : List Int)
    (hfind : ms.findStudent roll = some p) (hs : ms.students[p]? = some s)
    (hm : s.marks = some l) (hn : (l.length : Int) = s.numSubjects)
    (marksIn : List Int) (hlen : marksIn.length = l.length)
    (k : Nat) (hk : k < marksIn.length)
    (hbad : marksIn.getD k 0 < 0 ∨ marksIn.getD k 0 > 100)
    (hgood : ∀ j, j < k → 0 ≤ marksIn.getD j 0 ∧ marksIn.getD j 0 ≤ 100) :
    ms.conductExam roll marksIn =
      (.caught ⟨.invalidMarks, "Marks must be between 0 and 100"⟩,
        { ms with students :=
            ms.students.set p { s with marks := some (marksIn.take k ++ l.drop k) } }) ∧
    (k = 0 → (ms.conductExam roll marksIn).2 = ms) := by
  have hmain : ms.conductExam roll marksIn =
      (.caught ⟨.invalidMarks, "Marks must be between 0 and 100"⟩,
        { ms with students :=
            ms.students.set p { s with marks := some (marksIn.take k ++ l.drop k) } }) := by
    rw [conductExam_found ms u hu hr roll marksIn p s hfind hs]
    obtain ⟨r, nm, c, m, n⟩ := s
    simp only at hm hn
    subst hm
    have hnat : n.toNat = l.length := by omega
    obtain ⟨rest, hrange⟩ := range_split k l.length (by omega)
    simp only [Student.getNumSubjects, hnat]
    rw [hrange, enterMarks_append,
      enterMarks_upto_ok marksIn r nm c l n hn k (by omega) (by omega) hgood]
    simp only [enterMarks, Student.setMarks]
    rw [if_neg (by omega), if_pos hbad]
  refine ⟨hmain, fun hk0 => ?_⟩
  subst hk0
  rw [hmain]
  obtain ⟨r, nm, c, m, n⟩ := s
  simp only at hm
  subst hm
  simp only [List.take_zero, List.drop_zero, List.nil_append]
  rw [set_self_of_getElem? _ _ _ hs]

theorem conductExam_fail_written_witness :
    sampleAdminSession.conductExam 7 [50, 60, 101] =
      (.caught ⟨.invalidMarks, "Marks must be between 0 and 100"⟩,
        ManagementSystem.mk [Student.mk 7 "Asha" "BTech" (some [50, 60, 0]) 3]
          init.users (some (Admin "admin" "admin123"))) :=
  (conductExam_fail_written sampleAdminSession (Admin "admin" "admin123") rfl (Or.inl rfl)
    7 0 (Student.mk 7 "Asha" "BTech" (some [0, 0, 0]) 3) [0, 0, 0] (by decide) rfl rfl
    (by decide) [50, 60, 101] rfl 2 (by decide) (by decide)
    (fun j hj => by
      match j, hj with
      | 0, _ => decide
      | 1, _ => decide)).1

/-- C13 (as stated) fails: under the "Admin" session, `conductExam` for roll 7
with the values 50, 101, 70 ends in `InvalidMarksException` on the second
value, and the student's marks are then `[50, 0, 0]`, not `[0, 0, 0]` as
before the call. -/
theorem conductExam_partial_counterexample :
    (sampleAdminSession.conductExam 7 [50, 101, 70]).1 =
        .caught ⟨.invalidMarks, "Marks must be between 0 and 100"⟩ ∧
      sampleAdminSession.students = [Student.mk 7 "Asha" "BTech" (some [0, 0, 0]) 3] ∧
      (sampleAdminSession.conductExam 7 [50, 101, 70]).2.students =
        [Student.mk 7 "Asha" "BTech" (some [50, 0, 0]) 3] ∧
      (sampleAdminSession.conductExam 7 [50, 101, 70]).2.students.map Student.marks ≠
        sampleAdminSession.students.map Student.marks := by
  decide

/-! ## Invariants of the reachable states -/

theorem setMarks_preserves (s : Student) (i v : Int) :
    (s.setMarks i v).2.rollNo = s.rollNo ∧
    (s.setMarks i v).2.numSubjects = s.numSubjects ∧
    (s.MarksValid → (s.setMarks i v).2.MarksValid) := by
  unfold Student.setMarks
  split_ifs with h1 h2
  · exact ⟨rfl, rfl, id⟩
  · exact ⟨rfl, rfl, id⟩
  · refine ⟨rfl, rfl, ?_⟩
    rintro ⟨hpos, l, hm, hlen, hrange⟩
    refine ⟨hpos, l.set i.toNat v, by simp only [hm, Option.map_some'], ?_, ?_⟩
    · simpa using hlen
    · intro x hx
      rcases List.mem_or_eq_of_mem_set hx with hx | rfl
      · exact hrange x hx
      · omega

theorem enterMarks_preserves (marksIn : List Int) (is : List Nat) :
    ∀ s : Student,
      (enterMarks marksIn is s).2.rollNo = s.rollNo ∧
      (enterMarks marksIn is s).2.numSubjects = s.numSubjects ∧
      (s.MarksValid → (enterMarks marksIn is s).2.MarksValid) := by
  induction is with
  | nil => intro s; exact ⟨rfl, rfl, id⟩
  | cons i rest ih =>
    intro s
    obtain ⟨h1, h2, h3⟩ := setMarks_preserves s i (marksIn.getD i 0)
    simp only [enterMarks]
    rcases hset : s.setMarks i (marksIn.getD i 0) with ⟨r, s'⟩
    rw [hset] at h1 h2 h3
    cases r with
    | ok u =>
      obtain ⟨g1, g2, g3⟩ := ih s'
      exact ⟨g1.trans h1, g2.trans h2, fun hv => g3 (h3 hv)⟩
    | error e => exact ⟨h1, h2, h3⟩

theorem applyChoice_preserves (s s' : Student) (choice : Int) (name course : String)
    (h : applyChoice s choice name course = some s') :
    s'.rollNo = s.rollNo ∧ s'.numSubjects = s.numSubjects ∧
    (s.MarksValid → s'.MarksValid) := by
  unfold applyChoice at h
  split_ifs at h <;> simp only [Option.some.injEq] at h <;> subst h <;>
    exact ⟨rfl, rfl, id⟩

/-- The three ways a call can leave the roster: as it was, with one stored
student replaced by one of the same roll number and subject count, or with
one new student of a fresh roll number appended. -/
theorem step_students (ms : ManagementSystem) (op : Op) :
    (step ms op).students = ms.students ∨
    (∃ p s s', ms.students[p]? = some s ∧ (step ms op).students = ms.students.set p s' ∧
      s'.rollNo = s.rollNo ∧ s'.numSubjects = s.numSubjects ∧
      (s.MarksValid → s'.MarksValid)) ∨
    (∃ st, (step ms op).students = ms.students ++ [st] ∧
      (∀ s ∈ ms.students, s.rollNo ≠ st.rollNo) ∧ st.MarksValid) := by
  cases op with
  | login username password =>
    left
    simp only [step, login]
    cases loginScan username password ms.users <;> rfl
  | logout => exact Or.inl rfl
  | addStudent roll name course subjects =>
    cases hc : ms.currentUser with
    | none => left; simp [step, addStudent, hc]
    | some u =>
      by_cases ha : u.role = "Admin"
      · simp only [step, addStudent_admin ms u hc ha]
        by_cases h1 : rollExists roll ms.students = true
        · left; simp only [h1, if_true]
        · by_cases h2 : subjects ≤ 0
          · left; simp only [h1, Bool.false_eq_true, if_false, h2, if_true]
          · right; right
            simp only [h1, Bool.false_eq_true, if_false, h2]
            refine ⟨_, rfl, ?_, ?_⟩
            · exact (rollExists_false_iff roll ms.students).mp (by simpa using h1)
            · refine ⟨by simp only; omega, _, rfl, ?_, ?_⟩
              · simp only [List.length_replicate]; omega
              · intro x hx
                rw [(List.mem_replicate.mp hx).2]
                omega
      · left; simp [step, addStudent, hc, User.getRole, ha]
  | updateStudent roll choice name course =>
    simp only [step, updateStudent]
    cases ms.currentUser with
    | none => exact Or.inl rfl
    | some u =>
      simp only
      split_ifs
      · exact Or.inl rfl
      · cases ms.findStudent roll with
        | none => exact Or.inl rfl
        | some p =>
          simp only
          cases hs : ms.students[p]? with
          | none => exact Or.inl rfl
          | some s =>
            simp only
            cases hch : applyChoice s choice name course with
            | none => exact Or.inl rfl
            | some s' =>
              obtain ⟨g1, g2, g3⟩ := applyChoice_preserves s s' choice name course hch
              exact Or.inr (Or.inl ⟨p, s, s', hs, rfl, g1, g2, g3⟩)
  | conductExam roll marksIn =>
    simp only [step, conductExam]
    cases ms.currentUser with
    | none => exact Or.inl rfl
    | some u =>
      simp only
      split_ifs
      · exact Or.inl rfl
      · cases ms.findStudent roll with
        | none => exact Or.inl rfl
        | some p =>
          simp only
          cases hs : ms.students[p]? with
          | none => exact Or.inl rfl
          | some s =>
            simp only
            obtain ⟨g1, g2, g3⟩ :=
              enterMarks_preserves marksIn (List.range s.getNumSubjects.toNat) s
            rcases hem : enterMarks marksIn (List.range s.getNumSubjects.toNat) s with ⟨r, s'⟩
            rw [hem] at g1 g2 g3
            cases r with
            | ok u => exact Or.inr (Or.inl ⟨p, s, s', hs, rfl, g1, g2, g3⟩)
            | error e => exact Or.inr (Or.inl ⟨p, s, s', hs, rfl, g1, g2, g3⟩)
  | searchStudent roll =>
    left
    simp only [step, searchStudent]
    cases ms.findStudent roll <;> rfl
  | sortStudentsByMarks choice =>
    left
    simp only [step, sortStudentsByMarks]
    split_ifs <;> rfl
  | displayAllStudents =>
    left
    simp only [step, displayAllStudents]
    split_ifs <;> rfl

theorem step_keeps_identity (ms : ManagementSystem) (op : Op) (i : Nat) (s : Student)
    (h : ms.students[i]? = some s) :
    ∃ s', (step ms op).students[i]? = some s' ∧
      s'.rollNo = s.rollNo ∧ s'.numSubjects = s.numSubjects := by
  rcases step_students ms op with heq | ⟨p, a, a', ha, hset, hr, hn, _⟩ | ⟨st, happ, _, _⟩
  · exact ⟨s, by rw [heq]; exact h, rfl, rfl⟩
  · rw [hset]
    by_cases hip : p = i
    · subst hip
      have hlt : p < ms.students.length := (List.getElem?_eq_some_iff.mp h).1
      have hsa : a = s := Option.some.inj (ha.symm.trans h)
      subst hsa
      exact ⟨a', by simp [List.getElem?_set_self, hlt], hr, hn⟩
    · exact ⟨s, by rw [List.getElem?_set_ne hip]; exact h, rfl, rfl⟩
  · rw [happ]
    have hlt : i < ms.students.length := (List.getElem?_eq_some_iff.mp h).1
    exact ⟨s, by rw [List.getElem?_append_left hlt]; exact h, rfl, rfl⟩

theorem map_set_same {α β : Type} (f : α → β) (l : List α) (p : Nat) (a a' : α)
    (h : l[p]? = some a) (hf : f a' = f a) : (l.set p a').map f = l.map f := by
  induction l generalizing p with
  | nil => rfl
  | cons x xs ih =>
    cases p with
    | zero =>
      simp only [List.getElem?_cons_zero, Option.some.injEq] at h
      simp only [List.set_cons_zero, List.map_cons, hf, h]
    | succ q =>
      simp only [List.getElem?_cons_succ] at h
      simp only [List.set_cons_succ, List.map_cons, ih q h]

theorem step_rolls_nodup (ms : ManagementSystem) (op : Op)
    (h : (ms.students.map Student.rollNo).Nodup) :
    ((step ms op).students.map Student.rollNo).Nodup := by
  rcases step_students ms op with heq | ⟨p, a, a', ha, hset, hr, _, _⟩ | ⟨st, happ, hnew, _⟩
  · rw [heq]; exact h
  · rw [hset, map_set_same Student.rollNo _ p a a' ha hr]; exact h
  · rw [happ, List.map_append, List.map_cons, List.map_nil]
    refine List.Nodup.append h (List.nodup_singleton _) ?_
    intro r hr1 hr2
    obtain ⟨s, hs, rfl⟩ := List.mem_map.mp hr1
    exact hnew s hs (List.mem_singleton.mp hr2)

theorem step_marks_valid (ms : ManagementSystem) (op : Op)
    (h : ∀ s ∈ ms.students, s.MarksValid) :
    ∀ s ∈ (step ms op).students, s.MarksValid := by
  rcases step_students ms op with heq | ⟨p, a, a', ha, hset, _, _, hv⟩ | ⟨st, happ, _, hst⟩
  · rw [heq]; exact h
  · rw [hset]
    intro s hs
    rcases List.mem_or_eq_of_mem_set hs with hs | rfl
    · exact h s hs
    · exact hv (h a (List.getElem?_mem ha))
  · rw [happ]
    intro s hs
    rcases List.mem_append.mp hs with hs | hs
    · exact h s hs
    · rw [List.mem_singleton.mp hs]; exact hst

theorem run_invariant (P : ManagementSystem → Prop)
    (hstep : ∀ ms op, P ms → P (step ms op)) (ops : List Op) :
    ∀ ms, P ms → P (run ms ops) := by
  induction ops with
  | nil => intro ms h; exact h
  | cons op rest ih => intro ms h; exact ih (step ms op) (hstep ms op h)

/-- C14: in every state reached from the initial system by any sequence of
`login`, `logout`, `addStudent`, `updateStudent`, `conductExam`,
`searchStudent`, `sortStudentsByMarks` and `displayAllStudents` calls with any
arguments, the roll numbers of the stored students are pairwise distinct, and
whatever call comes next, every stored student is still at its position with
the roll number it had. -/
theorem roll_unique_invariant (ops : List Op) :
    ((run init ops).students.map Student.rollNo).Nodup ∧
    (∀ (i j : Nat) (s t : Student), i < j → (run init ops).students[i]? = some s →
      (run init ops).students[j]? = some t → s.rollNo ≠ t.rollNo) ∧
    (∀ (op : Op) (i : Nat) (s : Student), (run init ops).students[i]? = some s →
      ∃ s', (step (run init ops) op).students[i]? = some s' ∧ s'.rollNo = s.rollNo) := by
  have hnd : ((run init ops).students.map Student.rollNo).Nodup :=
    run_invariant (fun ms => (ms.students.map Student.rollNo).Nodup)
      step_rolls_nodup ops init List.nodup_nil
  refine ⟨hnd, ?_, ?_⟩
  · intro i j s t hij hs ht heq
    have hi : ((run init ops).students.map Student.rollNo)[i]? = some s.rollNo := by
      rw [List.getElem?_map, hs]; rfl
    have hj : ((run init ops).students.map Student.rollNo)[j]? = some t.rollNo := by
      rw [List.getElem?_map, ht]; rfl
    obtain ⟨hil, hie⟩ := List.getElem?_eq_some_iff.mp hi
    obtain ⟨hjl, hje⟩ := List.getElem?_eq_some_iff.mp hj
    have := (List.Nodup.getElem_inj_iff hnd).mp (hie.trans (heq.trans hje.symm))
    omega
  · intro op i s hs
    obtain ⟨s', h1, h2, _⟩ := step_keeps_identity (run init ops) op i s hs
    exact ⟨s', h1, h2⟩

theorem roll_unique_invariant_witness :
    (run init sampleOps).students.map Student.rollNo = [7, 9] ∧
    ((run init sampleOps).students.map Student.rollNo).Nodup :=
  ⟨by decide, (roll_unique_invariant sampleOps).1⟩

/-- C15: in every state reached from the initial system by any sequence of
calls with any arguments, every stored student has a subject count greater
than 0, a marks array of exactly that many elements, and every mark in
`[0, 100]`; and whatever call comes next, every stored student is still at its
position with the subject count it had. -/
theorem marks_range_invariant (ops : List Op) :
    (∀ s ∈ (run init ops).students,
      0 < s.numSubjects ∧
      ∃ l, s.marks = some l ∧ (l.length : Int) = s.numSubjects ∧
        ∀ x ∈ l, 0 ≤ x ∧ x ≤ 100) ∧
    (∀ (op : Op) (i : Nat) (s : Student), (run init ops).students[i]? = some s →
      ∃ s', (step (run init ops) op).students[i]? = some s' ∧
        s'.numSubjects = s.numSubjects) := by
  refine ⟨?_, ?_⟩
  · exact run_invariant (fun ms => ∀ s ∈ ms.students, s.MarksValid)
      step_marks_valid ops init (fun s hs => by simp [init] at hs)
  · intro op i s hs
    obtain ⟨s', h1, _, h3⟩ := step_keeps_identity (run init ops) op i s hs
    exact ⟨s', h1, h3⟩

theorem marks_range_invariant_witness :
    (run init sampleOps).students.map Student.marks = [some [50, 0, 0], some [88, 92]] ∧
    (∀ s ∈ (run init sampleOps).students,
      0 < s.numSubjects ∧
      ∃ l, s.marks = some l ∧ (l.length : Int) = s.numSubjects ∧
        ∀ x ∈ l, 0 ≤ x ∧ x ≤ 100) :=
  ⟨by decide, (marks_range_invariant sampleOps).1⟩

end ManagementSystem

end StudentSystem
